import Mathlib

/-!
# Verification of the ArdusRpa form-automation scripts

This development shallowly embeds the value-coercion, field-location and
fallback-mapping logic of the repository's Python scripts and proves (or
refutes) the specification claims about them.

Sources embedded:
* `prac/main.py` (CSV-driven Google-Forms filler),
* `prac/google-form-rpa-agent/rpa/browser_filler.py` (`prefill_form`),
* `prac/google-form-rpa-agent/rpa/form_parser_gemini.py`
  (`_guess_value`, `_fallback_config`, `call_gemini`),
* `prac/normalforms/form_filler/filler.py` (`fill_value`, `wait_for_success`)
  and its driver loop `prac/sallie_form/form_filler/__main__.py`.

Machine strings are Lean `String`s; Python dictionaries are association
lists with first-occurrence lookup and in-place update; Python exceptions
are `Except String`; browser pages are explicit record states.
-/

namespace ArdusRpa

/-! ## Python string primitives -/

/-- The single-quote character (U+0027), kept as a named constant so XPath
and error-message strings can be assembled without quote literals. -/
def sq : Char := Char.ofNat 39

/-- The double-quote character (U+0022). -/
def dq : Char := Char.ofNat 34

/-- The newline character, relevant because a Python `$` anchor also
matches just before a trailing newline. -/
def nl : Char := Char.ofNat 10

/-- `sq` as a one-character string. -/
def sqS : String := String.singleton sq

/-- `dq` as a one-character string. -/
def dqS : String := String.singleton dq

/-- Contiguous-substring test at the character-list level. -/
def isInfixOfChars (pat : List Char) : List Char → Bool
  | [] => pat.isPrefixOf []
  | c :: rest => pat.isPrefixOf (c :: rest) || isInfixOfChars pat rest

/-- Python `pat in s` substring test (also `contains()` in XPath). -/
def strContains (s pat : String) : Bool :=
  isInfixOfChars pat.data s.data

/-- Python's whitespace class for `str.strip()` (ASCII range). -/
def pyIsSpace (c : Char) : Bool :=
  c.toNat = 32 || (9 ≤ c.toNat && c.toNat ≤ 13)

/-- Python `s.strip()`: remove leading and trailing whitespace. -/
def pyStrip (s : String) : String :=
  String.mk (((s.data.dropWhile pyIsSpace).reverse.dropWhile pyIsSpace).reverse)

/-- Python `s.lower()` (ASCII case mapping). -/
def pyLower (s : String) : String :=
  String.mk (s.data.map Char.toLower)

/-- Python `s.endswith(suffix)`. -/
def pyEndsWith (s suffix : String) : Bool :=
  suffix.data.isSuffixOf s.data

/-- Python `s[:-n]` for `0 < n`: drop the last `n` characters. -/
def pyDropRight (s : String) (n : Nat) : String :=
  String.mk (s.data.take (s.data.length - n))

/-- Python `s.split(sep)` for a one-character separator, at the
character-list level (same shape as `splitSq` below). -/
def splitChar (sep : Char) : List Char → List (List Char)
  | [] => [[]]
  | c :: rest =>
    if c = sep then [] :: splitChar sep rest
    else
      match splitChar sep rest with
      | [] => [[c]]
      | p :: ps => (c :: p) :: ps

/-- Python `s.split(sep)` on strings. -/
def pySplit (s : String) (sep : Char) : List String :=
  (splitChar sep s.data).map String.mk

/-- Numeric value of a list of decimal digit characters, as Python
`int()` computes it on a digit-only string. -/
def natOfDigits (cs : List Char) : Nat :=
  cs.foldl (fun acc c => 10 * acc + (c.toNat - 48)) 0

/-- Python `f"{n:02d}"`: decimal representation zero-padded to width 2. -/
def pad2 (n : Nat) : String :=
  (if n < 10 then "0" else "") ++ toString n

/-! ## `prefill_form` date/time coercion
(`prac/google-form-rpa-agent/rpa/browser_filler.py`, lines 34-47)

The date branch runs `re.match(r"(\d{4})-(\d{2})-(\d{2})$", str(val))` and,
on a match, fills the three sub-inputs `entry.<id>_year`, `_month`, `_day`
with `y`, `str(int(mo))`, `str(int(d))`.  The time branch runs
`re.match(r"(\d{2}):(\d{2})$", str(val))` and fills `_hour`, `_minute`
with `str(int(hh))`, `f"{int(mm):02d}"`.  We embed the two regexes
directly: `re.match` anchors at the start, and `$` accepts the end of the
string or a position just before one trailing newline. -/

/-- Take exactly `n` decimal digits from the front of `cs`. -/
def takeDigits : Nat → List Char → Option (List Char × List Char)
  | 0, cs => some ([], cs)
  | n + 1, [] => (fun _ => none) n
  | n + 1, c :: cs =>
    if c.isDigit then
      (takeDigits n cs).map (fun p => (c :: p.1, p.2))
    else none

/-- Python's `$` anchor: end of string, or just before a final newline. -/
def dollarEnd (cs : List Char) : Bool :=
  cs = [] || cs = [nl]

/-- The match of `(\d{4})-(\d{2})-(\d{2})$` under `re.match`, returning
the three captured groups. -/
def matchDateRe (cs : List Char) : Option (List Char × List Char × List Char) :=
  match takeDigits 4 cs with
  | none => none
  | some (y, r1) =>
    match r1 with
    | '-' :: r2 =>
      match takeDigits 2 r2 with
      | none => none
      | some (mo, r3) =>
        match r3 with
        | '-' :: r4 =>
          match takeDigits 2 r4 with
          | none => none
          | some (d, r5) =>
            if dollarEnd r5 then some (y, mo, d) else none
        | _ => none
    | _ => none

/-- The match of `(\d{2}):(\d{2})$` under `re.match`. -/
def matchTimeRe (cs : List Char) : Option (List Char × List Char) :=
  match takeDigits 2 cs with
  | none => none
  | some (hh, r1) =>
    match r1 with
    | ':' :: r2 =>
      match takeDigits 2 r2 with
      | none => none
      | some (mm, r3) =>
        if dollarEnd r3 then some (hh, mm) else none
    | _ => none

/-- The `t=='date'` branch of `prefill_form`: the suffix/value pairs that
would be filled into the `_year`/`_month`/`_day` sub-inputs, or `none`
when the value fails the format regex and the fill is silently skipped. -/
def datePartsOfValue (val : String) : Option (List (String × String)) :=
  match matchDateRe val.data with
  | none => none
  | some (y, mo, d) =>
    some [("_year", String.mk y),
          ("_month", toString (natOfDigits mo)),
          ("_day", toString (natOfDigits d))]

/-- The `t=='time'` branch of `prefill_form`: the suffix/value pairs for
the `_hour`/`_minute` sub-inputs, or `none` when the value fails the
format regex. -/
def timePartsOfValue (val : String) : Option (List (String × String)) :=
  match matchTimeRe val.data with
  | none => none
  | some (hh, mm) =>
    some [("_hour", toString (natOfDigits hh)),
          ("_minute", pad2 (natOfDigits mm))]

/-! ### Structural soundness of the two regex embeddings -/

theorem takeDigits_sound {n : Nat} {cs ds rest : List Char}
    (h : takeDigits n cs = some (ds, rest)) :
    cs = ds ++ rest ∧ ds.length = n ∧ ∀ c ∈ ds, c.isDigit := by
  induction n generalizing cs ds rest with
  | zero =>
    simp only [takeDigits, Option.some.injEq, Prod.mk.injEq] at h
    simp [← h.1, ← h.2]
  | succ n ih =>
    cases cs with
    | nil => simp [takeDigits] at h
    | cons c cs' =>
      simp only [takeDigits] at h
      by_cases hd : c.isDigit
      · simp only [hd, if_true, Option.map_eq_some'] at h
        obtain ⟨⟨ds', rest'⟩, hp, heq⟩ := h
        obtain ⟨h1, h2, h3⟩ := ih hp
        cases heq
        refine ⟨by simp [h1], by simp [h2], ?_⟩
        intro x hx
        rcases List.mem_cons.mp hx with rfl | hx
        · exact hd
        · exact h3 x hx
      · simp [hd] at h

theorem matchDateRe_sound {cs y mo d : List Char}
    (h : matchDateRe cs = some (y, mo, d)) :
    ∃ rest, cs = y ++ '-' :: mo ++ '-' :: d ++ rest ∧
      y.length = 4 ∧ mo.length = 2 ∧ d.length = 2 ∧
      (∀ c ∈ y, c.isDigit) ∧ (∀ c ∈ mo, c.isDigit) ∧ (∀ c ∈ d, c.isDigit) ∧
      (rest = [] ∨ rest = [nl]) := by
  unfold matchDateRe at h
  cases h1 : takeDigits 4 cs with
  | none => simp [h1] at h
  | some p1 =>
    obtain ⟨y', r1⟩ := p1
    simp only [h1] at h
    cases r1 with
    | nil => simp at h
    | cons c1 r2 =>
      by_cases hc1 : c1 = '-'
      · subst hc1
        simp only at h
        cases h2 : takeDigits 2 r2 with
        | none => simp [h2] at h
        | some p2 =>
          obtain ⟨mo', r3⟩ := p2
          simp only [h2] at h
          cases r3 with
          | nil => simp at h
          | cons c2 r4 =>
            by_cases hc2 : c2 = '-'
            · subst hc2
              simp only at h
              cases h3 : takeDigits 2 r4 with
              | none => simp [h3] at h
              | some p3 =>
                obtain ⟨d', r5⟩ := p3
                simp only [h3] at h
                by_cases he : dollarEnd r5
                · simp only [he, if_true, Option.some.injEq, Prod.mk.injEq] at h
                  obtain ⟨rfl, rfl, rfl⟩ := h
                  obtain ⟨e1, e2, e3⟩ := takeDigits_sound h1
                  obtain ⟨f1, f2, f3⟩ := takeDigits_sound h2
                  obtain ⟨g1, g2, g3⟩ := takeDigits_sound h3
                  refine ⟨r5, ?_, e2, f2, g2, e3, f3, g3, ?_⟩
                  · simp [e1, f1, g1]
                  · unfold dollarEnd at he
                    simpa using he
                · simp [he] at h
            · cases c2 <;> simp_all
      · cases c1 <;> simp_all

theorem matchTimeRe_sound {cs hh mm : List Char}
    (h : matchTimeRe cs = some (hh, mm)) :
    ∃ rest, cs = hh ++ ':' :: mm ++ rest ∧
      hh.length = 2 ∧ mm.length = 2 ∧
      (∀ c ∈ hh, c.isDigit) ∧ (∀ c ∈ mm, c.isDigit) ∧
      (rest = [] ∨ rest = [nl]) := by
  unfold matchTimeRe at h
  cases h1 : takeDigits 2 cs with
  | none => simp [h1] at h
  | some p1 =>
    obtain ⟨hh', r1⟩ := p1
    simp only [h1] at h
    cases r1 with
    | nil => simp at h
    | cons c1 r2 =>
      by_cases hc1 : c1 = ':'
      · subst hc1
        simp only at h
        cases h2 : takeDigits 2 r2 with
        | none => simp [h2] at h
        | some p2 =>
          obtain ⟨mm', r3⟩ := p2
          simp only [h2] at h
          by_cases he : dollarEnd r3
          · simp only [he, if_true, Option.some.injEq, Prod.mk.injEq] at h
            obtain ⟨rfl, rfl⟩ := h
            obtain ⟨e1, e2, e3⟩ := takeDigits_sound h1
            obtain ⟨f1, f2, f3⟩ := takeDigits_sound h2
            refine ⟨r3, ?_, e2, f2, e3, f3, ?_⟩
            · simp [e1, f1]
            · unfold dollarEnd at he
              simpa using he
          · simp [he] at h
      · cases c1 <;> simp_all

/-! ### Claim C1 (date fills) and claim C4 (time fills) -/

/-- C1, counterexample: the claim asserts that the malformed value
`"2025-13-40"` is rejected by the format check before any decomposition is
attempted.  In the code the gate is the digit-shape regex
`(\d{4})-(\d{2})-(\d{2})$`, which `"2025-13-40"` satisfies, so the value
IS decomposed (to year 2025, month 13, day 40) and a fill is attempted. -/
theorem claim_c1_counterexample :
    datePartsOfValue "2025-13-40" =
      some [("_year", "2025"), ("_month", "13"), ("_day", "40")] := by
  decide

/-- C1, amended: a date value is filled only if it matches the digit-shape
format `YYYY-MM-DD` (four digits, dash, two digits, dash, two digits,
optionally followed by a single trailing newline, which Python's `$`
anchor tolerates); a matching value is split and entered as the year,
the un-padded month and the un-padded day; a value failing the shape is
silently skipped.  The shape check is a format regex, not calendar
validation, so `"2025-13-40"` passes it and is decomposed to year 2025,
month 13, day 40. -/
theorem claim_c1_date_fill :
    (∀ (val : String) (ps : List (String × String)),
      datePartsOfValue val = some ps →
      ∃ y mo d rest, val.data = y ++ '-' :: mo ++ '-' :: d ++ rest ∧
        y.length = 4 ∧ mo.length = 2 ∧ d.length = 2 ∧
        (∀ c ∈ y, c.isDigit) ∧ (∀ c ∈ mo, c.isDigit) ∧ (∀ c ∈ d, c.isDigit) ∧
        (rest = [] ∨ rest = [nl]) ∧
        ps = [("_year", String.mk y),
              ("_month", toString (natOfDigits mo)),
              ("_day", toString (natOfDigits d))]) ∧
    datePartsOfValue "2025-06-09" =
      some [("_year", "2025"), ("_month", "6"), ("_day", "9")] ∧
    datePartsOfValue "2025-13-40" =
      some [("_year", "2025"), ("_month", "13"), ("_day", "40")] := by
  refine ⟨?_, by decide, by decide⟩
  intro val ps h
  unfold datePartsOfValue at h
  cases hm : matchDateRe val.data with
  | none => simp [hm] at h
  | some g =>
    obtain ⟨y, mo, d⟩ := g
    simp only [hm, Option.some.injEq] at h
    obtain ⟨rest, h1, h2, h3, h4, h5, h6, h7, h8⟩ := matchDateRe_sound hm
    exact ⟨y, mo, d, rest, h1, h2, h3, h4, h5, h6, h7, h8, h.symm⟩

/-- C1, witness for `claim_c1_date_fill`: instantiating the soundness
conjunct at the concrete value `"2025-06-09"`. -/
theorem claim_c1_date_fill_witness :
    ∃ y mo d rest,
      ("2025-06-09" : String).data = y ++ '-' :: mo ++ '-' :: d ++ rest ∧
      y.length = 4 ∧ mo.length = 2 ∧ d.length = 2 ∧
      (∀ c ∈ y, c.isDigit) ∧ (∀ c ∈ mo, c.isDigit) ∧ (∀ c ∈ d, c.isDigit) ∧
      (rest = [] ∨ rest = [nl]) ∧
      [("_year", "2025"), ("_month", "6"), ("_day", "9")] =
        [("_year", String.mk y),
         ("_month", toString (natOfDigits mo)),
         ("_day", toString (natOfDigits d))] :=
  claim_c1_date_fill.1 "2025-06-09"
    [("_year", "2025"), ("_month", "6"), ("_day", "9")] (by decide)

/-- C4: a time value is filled only if it matches the strict two-digit
`HH:MM` pattern `(\d{2}):(\d{2})$`; a matching value is entered as the
un-padded hour and the zero-padded minute; in particular `"09:45"`
decomposes to hour `9` and minute `45`, while `"9:45"` fails the
two-digit-hour pattern and is skipped with no fill attempted. -/
theorem claim_c4_time_fill :
    (∀ (val : String) (ps : List (String × String)),
      timePartsOfValue val = some ps →
      ∃ hh mm rest, val.data = hh ++ ':' :: mm ++ rest ∧
        hh.length = 2 ∧ mm.length = 2 ∧
        (∀ c ∈ hh, c.isDigit) ∧ (∀ c ∈ mm, c.isDigit) ∧
        (rest = [] ∨ rest = [nl]) ∧
        ps = [("_hour", toString (natOfDigits hh)),
              ("_minute", pad2 (natOfDigits mm))]) ∧
    timePartsOfValue "09:45" = some [("_hour", "9"), ("_minute", "45")] ∧
    timePartsOfValue "9:45" = none := by
  refine ⟨?_, by decide, by decide⟩
  intro val ps h
  unfold timePartsOfValue at h
  cases hm : matchTimeRe val.data with
  | none => simp [hm] at h
  | some g =>
    obtain ⟨hh, mm⟩ := g
    simp only [hm, Option.some.injEq] at h
    obtain ⟨rest, h1, h2, h3, h4, h5, h6⟩ := matchTimeRe_sound hm
    exact ⟨hh, mm, rest, h1, h2, h3, h4, h5, h6, h.symm⟩

/-- C4, witness for `claim_c4_time_fill`: instantiating the soundness
conjunct at the concrete value `"09:45"`. -/
theorem claim_c4_time_fill_witness :
    ∃ hh mm rest,
      ("09:45" : String).data = hh ++ ':' :: mm ++ rest ∧
      hh.length = 2 ∧ mm.length = 2 ∧
      (∀ c ∈ hh, c.isDigit) ∧ (∀ c ∈ mm, c.isDigit) ∧
      (rest = [] ∨ rest = [nl]) ∧
      [("_hour", "9"), ("_minute", "45")] =
        [("_hour", toString (natOfDigits hh)),
         ("_minute", pad2 (natOfDigits mm))] :=
  claim_c4_time_fill.1 "09:45" [("_hour", "9"), ("_minute", "45")] (by decide)

/-! ## `_xpath_literal` (`prac/main.py`, lines 73-89)

`_xpath_literal(s)` returns `"'" + s + "'"` when `s` has no single quote,
`'"' + s + '"'` when it has no double quote, and otherwise
`"concat(" + ", ".join(tokens) + ")"` where `tokens` quotes each nonempty
piece of `s.split("'")` in single quotes and inserts the double-quoted
literal for a single quote between consecutive pieces. -/

/-- Python `c in s` for a one-character needle: character membership. -/
def containsChar (s : String) (c : Char) : Bool :=
  decide (c ∈ s.data)

/-- Python `s.split("'")` at the character-list level. -/
def splitSq : List Char → List (List Char)
  | [] => [[]]
  | c :: rest =>
    if c = sq then [] :: splitSq rest
    else
      match splitSq rest with
      | [] => [[c]]
      | p :: ps => (c :: p) :: ps

/-- Rejoin the pieces of a single-quote split (inverse of `splitSq`). -/
def joinSq : List (List Char) → List Char
  | [] => []
  | [p] => p
  | p :: q :: ps => p ++ sq :: joinSq (q :: ps)

/-- The token list built by `_xpath_literal`'s loop: each nonempty piece
`p` becomes the single-quoted literal `'p'`, and a double-quoted literal
for a single quote is appended after every piece except the last. -/
def mkTokens : List (List Char) → List (List Char)
  | [] => []
  | [p] => if p = [] then [] else [sq :: p ++ [sq]]
  | p :: q :: ps =>
    (if p = [] then [[dq, sq, dq]]
     else [sq :: p ++ [sq], [dq, sq, dq]]) ++ mkTokens (q :: ps)

/-- Python `", ".join(tokens)` at the character-list level. -/
def joinArgs : List (List Char) → List Char
  | [] => []
  | [t] => t
  | t :: u :: ts => t ++ ',' :: ' ' :: joinArgs (u :: ts)

/-- `_xpath_literal`: an XPath string expression denoting exactly `s`. -/
def xpathLiteral (s : String) : String :=
  if containsChar s sq = false then sqS ++ s ++ sqS
  else if containsChar s dq = false then dqS ++ s ++ dqS
  else String.mk ("concat(".data ++ joinArgs (mkTokens (splitSq s.data)) ++ [')'])

/-! ### An evaluator for the XPath string expressions `_xpath_literal`
emits.  XPath 1.0 string literals are a quote character, any characters
other than that quote, and the closing quote; `concat` takes two or more
arguments.  The parser below accepts a restriction of that grammar
(arguments separated by a comma and a single space), so whatever it
accepts and evaluates is in particular a valid XPath expression with the
same value. -/

/-- Parse one XPath string literal from the front of the input, returning
its contents and the remaining input. -/
def parseLit : List Char → Option (List Char × List Char)
  | [] => none
  | q :: rest =>
    if q = sq ∨ q = dq then
      match rest.dropWhile (· != q) with
      | [] => none
      | _ :: rest' => some (rest.takeWhile (· != q), rest')
    else none

/-- Parse a nonempty comma-space separated sequence of XPath string
literals (fuel-bounded recursion). -/
def parseArgs : Nat → List Char → Option (List (List Char) × List Char)
  | 0, _ => none
  | fuel + 1, cs =>
    match parseLit cs with
    | none => none
    | some (c, rest) =>
      match rest with
      | ',' :: ' ' :: rest' =>
        match parseArgs fuel rest' with
        | none => none
        | some (more, rest'') => some (c :: more, rest'')
      | _ => some ([c], rest)

/-- Evaluate an XPath string expression of the restricted grammar: either
a lone string literal, or `concat(...)` of two or more string literals. -/
def xpathEvalString (e : String) : Option String :=
  if e.data.take 7 = "concat(".data then
    match parseArgs e.data.length (e.data.drop 7) with
    | some (args, [')']) =>
      if 2 ≤ args.length then some (String.mk args.flatten) else none
    | _ => none
  else
    match parseLit e.data with
    | some (content, []) => some (String.mk content)
    | _ => none

/-! ### Lemmas about the split/join/token machinery -/

theorem splitSq_ne_nil (cs : List Char) : splitSq cs ≠ [] := by
  cases cs with
  | nil => simp [splitSq]
  | cons c rest =>
    simp only [splitSq]
    by_cases h : c = sq
    · simp [h]
    · simp only [h, if_false]
      cases splitSq rest <;> simp

theorem joinSq_splitSq (cs : List Char) : joinSq (splitSq cs) = cs := by
  induction cs with
  | nil => simp [splitSq, joinSq]
  | cons c rest ih =>
    by_cases h : c = sq
    · subst h
      simp only [splitSq, if_pos rfl]
      obtain ⟨p, ps, hps⟩ : ∃ p ps, splitSq rest = p :: ps := by
        cases hx : splitSq rest with
        | nil => exact absurd hx (splitSq_ne_nil rest)
        | cons p ps => exact ⟨p, ps, rfl⟩
      rw [hps]
      rw [hps] at ih
      simp [joinSq, ih]
    · simp only [splitSq, h, if_false]
      cases hx : splitSq rest with
      | nil => exact absurd hx (splitSq_ne_nil rest)
      | cons p ps =>
        rw [hx] at ih
        cases ps with
        | nil => simpa [joinSq] using congrArg (c :: ·) ih
        | cons q ps' => simpa [joinSq] using congrArg (c :: ·) ih

theorem splitSq_no_sq (cs : List Char) : ∀ p ∈ splitSq cs, sq ∉ p := by
  induction cs with
  | nil => simp [splitSq]
  | cons c rest ih =>
    by_cases h : c = sq
    · subst h
      simp only [splitSq, if_pos rfl]
      intro p hp
      rcases List.mem_cons.mp hp with rfl | hp
      · simp
      · exact ih p hp
    · simp only [splitSq, h, if_false]
      cases hx : splitSq rest with
      | nil => exact absurd hx (splitSq_ne_nil rest)
      | cons p ps =>
        rw [hx] at ih
        intro x hx'
        rcases List.mem_cons.mp hx' with rfl | hx'
        · intro hm
          rcases List.mem_cons.mp hm with h' | h'
          · exact h h'.symm
          · exact ih p (List.mem_cons_self p ps) h'
        · exact ih x (List.mem_cons_of_mem p hx')

theorem splitSq_length_ge_two {cs : List Char} (h : sq ∈ cs) :
    2 ≤ (splitSq cs).length := by
  induction cs with
  | nil => simp at h
  | cons c rest ih =>
    by_cases hc : c = sq
    · subst hc
      have hr : splitSq (sq :: rest) = [] :: splitSq rest := by
        simp [splitSq]
      rw [hr, List.length_cons]
      have h1 : 1 ≤ (splitSq rest).length :=
        List.length_pos.mpr (splitSq_ne_nil rest)
      omega
    · have hr : sq ∈ rest := by
        rcases List.mem_cons.mp h with h' | h'
        · exact absurd h'.symm hc
        · exact h'
      simp only [splitSq, hc, if_false]
      cases hx : splitSq rest with
      | nil => exact absurd hx (splitSq_ne_nil rest)
      | cons p ps =>
        have := ih hr
        rw [hx] at this
        simpa using this

theorem splitSq_exists_nonempty {cs : List Char} {d : Char} (hd : d ≠ sq)
    (h : d ∈ cs) : ∃ p ∈ splitSq cs, p ≠ [] := by
  induction cs with
  | nil => simp at h
  | cons c rest ih =>
    by_cases hc : c = sq
    · subst hc
      have hr : d ∈ rest := by
        rcases List.mem_cons.mp h with h' | h'
        · exact absurd h' hd
        · exact h'
      obtain ⟨p, hp, hpne⟩ := ih hr
      exact ⟨p, by simp [splitSq, hp], hpne⟩
    · simp only [splitSq, hc, if_false]
      cases hx : splitSq rest with
      | nil => exact absurd hx (splitSq_ne_nil rest)
      | cons p ps =>
        exact ⟨c :: p, List.mem_cons_self _ _, by simp⟩

/-! ### Token/content pairs and the parser correctness lemmas -/

/-- A rendered token is a well-formed XPath string literal with the given
contents: some quote character not occurring in the contents surrounds
them. -/
def TokenWF (t c : List Char) : Prop :=
  ∃ q, (q = sq ∨ q = dq) ∧ q ∉ c ∧ t = q :: c ++ [q]

/-- The tokens of `mkTokens` paired with the contents each denotes. -/
def tokenPairs : List (List Char) → List (List Char × List Char)
  | [] => []
  | [p] => if p = [] then [] else [(sq :: p ++ [sq], p)]
  | p :: q :: ps =>
    (if p = [] then [([dq, sq, dq], [sq])]
     else [(sq :: p ++ [sq], p), ([dq, sq, dq], [sq])]) ++ tokenPairs (q :: ps)

theorem mkTokens_eq_tokenPairs (parts : List (List Char)) :
    mkTokens parts = (tokenPairs parts).map Prod.fst := by
  induction parts with
  | nil => simp [mkTokens, tokenPairs]
  | cons p rest ih =>
    cases rest with
    | nil =>
      by_cases hp : p = [] <;> simp [mkTokens, tokenPairs, hp]
    | cons q ps =>
      by_cases hp : p = [] <;> simp [mkTokens, tokenPairs, hp, ih]

theorem tokenPairs_contents (parts : List (List Char)) :
    ((tokenPairs parts).map Prod.snd).flatten = joinSq parts := by
  induction parts with
  | nil => simp [tokenPairs, joinSq]
  | cons p rest ih =>
    cases rest with
    | nil =>
      by_cases hp : p = [] <;> simp [tokenPairs, joinSq, hp]
    | cons q ps =>
      by_cases hp : p = [] <;> simp [tokenPairs, joinSq, hp, ih]

theorem tokenPairs_wf (parts : List (List Char))
    (h : ∀ p ∈ parts, sq ∉ p) :
    ∀ pr ∈ tokenPairs parts, TokenWF pr.1 pr.2 := by
  induction parts with
  | nil => simp [tokenPairs]
  | cons p rest ih =>
    have hdq : TokenWF [dq, sq, dq] [sq] :=
      ⟨dq, Or.inr rfl, by decide, by simp⟩
    have hsq : TokenWF (sq :: p ++ [sq]) p :=
      ⟨sq, Or.inl rfl, h p (List.mem_cons_self _ _), rfl⟩
    have ih' := ih (fun x hx => h x (List.mem_cons_of_mem p hx))
    cases rest with
    | nil =>
      by_cases hp : p = []
      · simp [tokenPairs, hp]
      · intro pr hpr
        simp only [tokenPairs, hp, if_false, List.mem_singleton] at hpr
        subst hpr
        exact hsq
    | cons q ps =>
      intro pr hpr
      by_cases hp : p = []
      · simp only [tokenPairs, hp, if_true, List.mem_append,
          List.mem_singleton] at hpr
        rcases hpr with rfl | hpr
        · exact hdq
        · exact ih' pr hpr
      · simp only [tokenPairs, hp, if_false, List.mem_append,
          List.mem_cons, List.not_mem_nil, or_false] at hpr
        rcases hpr with (rfl | rfl) | hpr
        · exact hsq
        · exact hdq
        · exact ih' pr hpr

theorem tokenPairs_cons_cons_pos (p q : List Char) (ps : List (List Char)) :
    1 ≤ (tokenPairs (p :: q :: ps)).length := by
  by_cases hp : p = [] <;> simp [tokenPairs, hp]

theorem tokenPairs_pos_of_nonempty {parts : List (List Char)}
    (h : ∃ p ∈ parts, p ≠ []) : 1 ≤ (tokenPairs parts).length := by
  cases parts with
  | nil => simp at h
  | cons p rest =>
    cases rest with
    | nil =>
      obtain ⟨x, hx, hxne⟩ := h
      simp only [List.mem_singleton] at hx
      subst hx
      simp [tokenPairs, hxne]
    | cons q ps => exact tokenPairs_cons_cons_pos p q ps

theorem tokenPairs_len_ge_two {parts : List (List Char)}
    (h2 : 2 ≤ parts.length) (hne : ∃ p ∈ parts, p ≠ []) :
    2 ≤ (tokenPairs parts).length := by
  cases parts with
  | nil => simp at h2
  | cons p rest =>
    cases rest with
    | nil => simp at h2
    | cons q ps =>
      by_cases hqs : ∃ x ∈ q :: ps, x ≠ []
      · have h1 := tokenPairs_pos_of_nonempty hqs
        by_cases hp : p = [] <;>
          simp only [tokenPairs, hp, if_true, if_false, List.length_append,
            List.length_cons, List.length_singleton, List.length_nil] <;>
          omega
      · have hp : p ≠ [] := by
          obtain ⟨x, hx, hxne⟩ := hne
          rcases List.mem_cons.mp hx with rfl | hx
          · exact hxne
          · exact absurd ⟨x, hx, hxne⟩ hqs
        simp only [tokenPairs, hp, if_false, List.length_append,
          List.length_cons, List.length_singleton]
        omega

theorem tokenPairs_fst_ne_nil (parts : List (List Char))
    (h : ∀ p ∈ parts, sq ∉ p) :
    ∀ pr ∈ tokenPairs parts, pr.1 ≠ [] := by
  intro pr hpr
  obtain ⟨q, _, _, hq⟩ := tokenPairs_wf parts h pr hpr
  simp [hq]

theorem joinArgs_length_ge {ts : List (List Char)}
    (h : ∀ t ∈ ts, t ≠ []) : ts.length ≤ (joinArgs ts).length := by
  induction ts with
  | nil => simp [joinArgs]
  | cons t rest ih =>
    cases rest with
    | nil =>
      have := h t (List.mem_cons_self _ _)
      have : 1 ≤ t.length := List.length_pos.mpr this
      simpa [joinArgs] using this
    | cons u ts' =>
      have ht : 1 ≤ t.length :=
        List.length_pos.mpr (h t (List.mem_cons_self _ _))
      have ih' := ih (fun x hx => h x (List.mem_cons_of_mem t hx))
      simp only [joinArgs, List.length_append, List.length_cons] at *
      omega

theorem takeWhile_append_stop (c tail : List Char) {q : Char}
    (hn : q ∉ c) : (c ++ q :: tail).takeWhile (· != q) = c := by
  induction c with
  | nil => simp [List.takeWhile_cons]
  | cons x xs ih =>
    have hx : x ≠ q := fun h => hn (h ▸ List.mem_cons_self x xs)
    have hxs : q ∉ xs := fun h => hn (List.mem_cons_of_mem x h)
    simp [List.takeWhile_cons, bne_iff_ne, hx, ih hxs]

theorem dropWhile_append_stop (c tail : List Char) {q : Char}
    (hn : q ∉ c) : (c ++ q :: tail).dropWhile (· != q) = q :: tail := by
  induction c with
  | nil => simp [List.dropWhile_cons]
  | cons x xs ih =>
    have hx : x ≠ q := fun h => hn (h ▸ List.mem_cons_self x xs)
    have hxs : q ∉ xs := fun h => hn (List.mem_cons_of_mem x h)
    simp [List.dropWhile_cons, bne_iff_ne, hx, ih hxs]

theorem parseLit_quoted (q : Char) (c tail : List Char)
    (hq : q = sq ∨ q = dq) (hn : q ∉ c) :
    parseLit (q :: (c ++ q :: tail)) = some (c, tail) := by
  simp only [parseLit, if_pos hq, dropWhile_append_stop c tail hn,
    takeWhile_append_stop c tail hn]

theorem parseArgs_spec (tcs : List (List Char × List Char)) (fuel : Nat)
    (h1 : tcs ≠ []) (h2 : ∀ pr ∈ tcs, TokenWF pr.1 pr.2)
    (h3 : tcs.length ≤ fuel) :
    parseArgs fuel (joinArgs (tcs.map Prod.fst) ++ [')']) =
      some (tcs.map Prod.snd, [')']) := by
  induction tcs generalizing fuel with
  | nil => exact absurd rfl h1
  | cons pr rest ih =>
    obtain ⟨t, c⟩ := pr
    obtain ⟨q, hq, hqn, hqt⟩ := h2 (t, c) (List.mem_cons_self _ _)
    simp only at hqt
    cases fuel with
    | zero => simp at h3
    | succ fuel' =>
      cases rest with
      | nil =>
        have hshape : joinArgs ((t, c) :: ([] : List (List Char × List Char))
            |>.map Prod.fst) ++ [')'] = q :: (c ++ q :: [')']) := by
          simp [joinArgs, hqt]
        rw [hshape]
        simp only [parseArgs, parseLit_quoted q c [')'] hq hqn]
        rfl
      | cons pr' rest' =>
        have hshape : joinArgs (((t, c) :: pr' :: rest').map Prod.fst) ++ [')'] =
            q :: (c ++ q :: (',' :: ' ' ::
              (joinArgs ((pr' :: rest').map Prod.fst) ++ [')']))) := by
          simp [joinArgs, hqt]
        rw [hshape]
        simp only [parseArgs, parseLit_quoted q c _ hq hqn]
        have ih' := ih fuel' (by simp)
          (fun x hx => h2 x (List.mem_cons_of_mem _ hx))
          (by simp at h3 ⊢; omega)
        rw [ih']
        rfl

theorem xpathEval_quoted (q : Char) (content : List Char)
    (hq : q = sq ∨ q = dq) (hn : q ∉ content) :
    xpathEvalString (String.mk (q :: content ++ [q])) =
      some (String.mk content) := by
  have hne : ¬ ((String.mk (q :: content ++ [q])).data.take 7 = "concat(".data) := by
    intro h
    have h' : q :: (content ++ [q]).take 6 = 'c' :: "oncat(".data := h
    have hqc : q = 'c' := (List.cons.injEq _ _ _ _).mp h' |>.1
    rcases hq with rfl | rfl
    · exact absurd hqc (by decide)
    · exact absurd hqc (by decide)
  rw [xpathEvalString, if_neg hne]
  have hpl : parseLit (String.mk (q :: content ++ [q])).data =
      some (content, []) := parseLit_quoted q content [] hq hn
  rw [hpl]

/-! ### Claim C9: `_xpath_literal` round-trips through XPath evaluation -/

/-- C9: for every string `s`, `_xpath_literal s` is a syntactically valid
XPath string expression evaluating to exactly `s`: a single-quoted
literal when `s` has no single quote, a double-quoted literal when `s`
has no double quote, and otherwise a `concat(...)` of single-quoted
fragments and double-quoted single-quote literals whose concatenation is
`s`.  Validity-and-value is expressed by the evaluator
`xpathEvalString`, which accepts a restriction of the XPath string
grammar. -/
theorem claim_c9_xpath_literal (s : String) :
    xpathEvalString (xpathLiteral s) = some s ∧
    (containsChar s sq = false → xpathLiteral s = sqS ++ s ++ sqS) ∧
    (containsChar s sq = true → containsChar s dq = false →
      xpathLiteral s = dqS ++ s ++ dqS) ∧
    (containsChar s sq = true → containsChar s dq = true →
      xpathLiteral s =
        String.mk ("concat(".data ++
          joinArgs (mkTokens (splitSq s.data)) ++ [')'])) := by
  by_cases h1 : containsChar s sq
  · by_cases h2 : containsChar s dq
    · -- both quote kinds occur: the concat branch
      have hxl : xpathLiteral s =
          String.mk ("concat(".data ++
            joinArgs (mkTokens (splitSq s.data)) ++ [')']) := by
        rw [xpathLiteral, if_neg (by simp [h1]), if_neg (by simp [h2])]
      refine ⟨?_, by simp [h1], by simp [h2], fun _ _ => hxl⟩
      have hsqmem : sq ∈ s.data := of_decide_eq_true h1
      have hdqmem : dq ∈ s.data := of_decide_eq_true h2
      have hnosq := splitSq_no_sq s.data
      have hwf := tokenPairs_wf (splitSq s.data) hnosq
      have hlen2 : 2 ≤ (tokenPairs (splitSq s.data)).length :=
        tokenPairs_len_ge_two (splitSq_length_ge_two hsqmem)
          (splitSq_exists_nonempty (by decide) hdqmem)
      have htne : tokenPairs (splitSq s.data) ≠ [] := by
        intro h
        rw [h] at hlen2
        simp at hlen2
      have hargne : ∀ t ∈ (tokenPairs (splitSq s.data)).map Prod.fst,
          t ≠ [] := by
        intro t ht
        obtain ⟨pr, hpr, rfl⟩ := List.mem_map.mp ht
        exact tokenPairs_fst_ne_nil (splitSq s.data) hnosq pr hpr
      rw [hxl, xpathEvalString]
      rw [mkTokens_eq_tokenPairs]
      have hassoc : "concat(".data ++
          joinArgs ((tokenPairs (splitSq s.data)).map Prod.fst) ++ [')'] =
          "concat(".data ++
          (joinArgs ((tokenPairs (splitSq s.data)).map Prod.fst) ++ [')']) := by
        simp
      rw [hassoc]
      have h7 : ("concat(".data).length = 7 := by decide
      have htake : (String.mk ("concat(".data ++
          (joinArgs ((tokenPairs (splitSq s.data)).map Prod.fst) ++ [')']))).data.take 7 =
          "concat(".data := List.take_left' h7
      have hdrop : (String.mk ("concat(".data ++
          (joinArgs ((tokenPairs (splitSq s.data)).map Prod.fst) ++ [')']))).data.drop 7 =
          joinArgs ((tokenPairs (splitSq s.data)).map Prod.fst) ++ [')'] :=
        List.drop_left' h7
      rw [if_pos htake, hdrop]
      have hfuel : (tokenPairs (splitSq s.data)).length ≤
          (String.mk ("concat(".data ++
            (joinArgs ((tokenPairs (splitSq s.data)).map Prod.fst) ++ [')']))).data.length := by
        have hj := joinArgs_length_ge hargne
        rw [List.length_map] at hj
        simp only [String.mk, List.length_append]
        omega
      rw [parseArgs_spec (tokenPairs (splitSq s.data)) _ htne hwf hfuel]
      have hlen2' : 2 ≤ ((tokenPairs (splitSq s.data)).map Prod.snd).length := by
        rw [List.length_map]
        exact hlen2
      simp only [hlen2', if_true]
      rw [tokenPairs_contents, joinSq_splitSq]
    · -- has a single quote but no double quote: double-quoted literal
      have h2' : containsChar s dq = false := by simpa using h2
      have hxl : xpathLiteral s = dqS ++ s ++ dqS := by
        rw [xpathLiteral, if_neg (by simp [h1]), if_pos h2']
      refine ⟨?_, fun hc => absurd hc (by simp [h1]), fun _ _ => hxl,
        fun _ hc => absurd hc (by simp [h2'])⟩
      have hn : dq ∉ s.data := by
        intro hm
        exact absurd (decide_eq_true hm)
          (by simp [containsChar] at h2' ⊢; exact h2')
      obtain ⟨l⟩ := s
      rw [hxl]
      have hrepr : dqS ++ String.mk l ++ dqS = String.mk (dq :: l ++ [dq]) := rfl
      rw [hrepr]
      exact xpathEval_quoted dq l (Or.inr rfl) hn
  · -- no single quote: single-quoted literal branch
    have h1' : containsChar s sq = false := by simpa using h1
    have hxl : xpathLiteral s = sqS ++ s ++ sqS := by
      rw [xpathLiteral, if_pos h1']
    refine ⟨?_, fun _ => hxl, fun h => absurd h (by simp [h1']),
      fun h => absurd h (by simp [h1'])⟩
    have hn : sq ∉ s.data := by
      intro hm
      exact absurd (decide_eq_true hm) (by simp [containsChar] at h1' ⊢; exact h1')
    obtain ⟨l⟩ := s
    rw [hxl]
    have hrepr : sqS ++ String.mk l ++ sqS = String.mk (sq :: l ++ [sq]) := rfl
    rw [hrepr]
    exact xpathEval_quoted sq l (Or.inl rfl) hn

/-- Sample string containing both quote kinds, for the C9 witness. -/
def mixedSample : String := String.mk ['a', sq, dq, 'b']

/-- C9, witness for `claim_c9_xpath_literal`: at the concrete string
`a'"b`, which takes the `concat(...)` branch, the round trip holds. -/
theorem claim_c9_xpath_literal_witness :
    xpathEvalString (xpathLiteral mixedSample) = some mixedSample ∧
    xpathLiteral mixedSample =
      String.mk ("concat(".data ++
        joinArgs (mkTokens (splitSq mixedSample.data)) ++ [')']) :=
  ⟨(claim_c9_xpath_literal mixedSample).1,
   (claim_c9_xpath_literal mixedSample).2.2.2 (by decide) (by decide)⟩

/-! ## `parse_row_types` (`prac/main.py`, lines 229-248)

Each CSV row is a Python dict from header to cell.  We model dicts as
association lists with first-occurrence lookup and Python's assignment
semantics (update in place when the key exists, else append). -/

/-- First-occurrence lookup in an association list (Python `d[k]`). -/
def lookupKey {α : Type} : List (String × α) → String → Option α
  | [], _ => none
  | kv :: rest, k => if kv.1 = k then some kv.2 else lookupKey rest k

/-- Python `d[k] = v` on a dict modelled as an association list: update
the existing binding in place, or append a new one. -/
def dictInsert {α : Type} (d : List (String × α)) (k : String) (v : α) :
    List (String × α) :=
  if (lookupKey d k).isSome then
    d.map (fun kv => if kv.1 = k then (kv.1, v) else kv)
  else d ++ [(k, v)]

/-- The three dicts built by `parse_row_types`. -/
structure RowTypes where
  text_fields : List (String × String)
  radio_fields : List (String × String)
  checkbox_fields : List (String × List String)

/-- One iteration of the `for key, val in row.items()` loop of
`parse_row_types`. -/
def parseRowStep (acc : RowTypes) (kv : String × Option String) : RowTypes :=
  match kv.2 with
  | none => acc
  | some val =>
    let k := pyStrip kv.1
    let v := pyStrip val
    if k = "" ∨ v = "" then acc
    else if pyEndsWith (pyLower k) "(choice)" then
      { acc with radio_fields :=
          dictInsert acc.radio_fields (pyStrip (pyDropRight k 8)) v }
    else if pyEndsWith (pyLower k) "(multi)" then
      let items := ((pySplit v ';').map pyStrip).filter (· ≠ "")
      { acc with checkbox_fields :=
          dictInsert acc.checkbox_fields (pyStrip (pyDropRight k 7)) items }
    else
      { acc with text_fields := dictInsert acc.text_fields k v }

/-- `parse_row_types(row)`: partition the row's cells into free-text,
radio-choice and checkbox fields. -/
def parse_row_types (row : List (String × Option String)) : RowTypes :=
  row.foldl parseRowStep ⟨[], [], []⟩

/-- The radio-dict contribution of a single row entry (mirror of the
`(choice)` branch of `parseRowStep`). -/
def radioEntry (kv : String × Option String) : Option (String × String) :=
  match kv.2 with
  | none => none
  | some val =>
    let k := pyStrip kv.1
    let v := pyStrip val
    if k = "" ∨ v = "" then none
    else if pyEndsWith (pyLower k) "(choice)" then
      some (pyStrip (pyDropRight k 8), v)
    else none

/-- The checkbox-dict contribution of a single row entry. -/
def checkboxEntry (kv : String × Option String) :
    Option (String × List String) :=
  match kv.2 with
  | none => none
  | some val =>
    let k := pyStrip kv.1
    let v := pyStrip val
    if k = "" ∨ v = "" then none
    else if pyEndsWith (pyLower k) "(choice)" then none
    else if pyEndsWith (pyLower k) "(multi)" then
      some (pyStrip (pyDropRight k 7),
        ((pySplit v ';').map pyStrip).filter (· ≠ ""))
    else none

/-- The text-dict contribution of a single row entry. -/
def textEntry (kv : String × Option String) : Option (String × String) :=
  match kv.2 with
  | none => none
  | some val =>
    let k := pyStrip kv.1
    let v := pyStrip val
    if k = "" ∨ v = "" then none
    else if pyEndsWith (pyLower k) "(choice)" then none
    else if pyEndsWith (pyLower k) "(multi)" then none
    else some (k, v)

/-- Folding `dictInsert` over a list of bindings, starting empty. -/
def buildDict {α : Type} (entries : List (String × α)) : List (String × α) :=
  entries.foldl (fun d kv => dictInsert d kv.1 kv.2) []

theorem parseRowStep_radio (acc : RowTypes) (kv : String × Option String) :
    (parseRowStep acc kv).radio_fields =
      match radioEntry kv with
      | some lv => dictInsert acc.radio_fields lv.1 lv.2
      | none => acc.radio_fields := by
  obtain ⟨key, val⟩ := kv
  cases val with
  | none => rfl
  | some v =>
    by_cases h1 : pyStrip key = "" ∨ pyStrip v = ""
    · simp [parseRowStep, radioEntry, h1]
    · by_cases h2 : pyEndsWith (pyLower (pyStrip key)) "(choice)"
      · simp [parseRowStep, radioEntry, h1, h2]
      · by_cases h3 : pyEndsWith (pyLower (pyStrip key)) "(multi)" <;>
          simp [parseRowStep, radioEntry, h1, h2, h3]

theorem parseRowStep_checkbox (acc : RowTypes) (kv : String × Option String) :
    (parseRowStep acc kv).checkbox_fields =
      match checkboxEntry kv with
      | some lv => dictInsert acc.checkbox_fields lv.1 lv.2
      | none => acc.checkbox_fields := by
  obtain ⟨key, val⟩ := kv
  cases val with
  | none => rfl
  | some v =>
    by_cases h1 : pyStrip key = "" ∨ pyStrip v = ""
    · simp [parseRowStep, checkboxEntry, h1]
    · by_cases h2 : pyEndsWith (pyLower (pyStrip key)) "(choice)"
      · simp [parseRowStep, checkboxEntry, h1, h2]
      · by_cases h3 : pyEndsWith (pyLower (pyStrip key)) "(multi)" <;>
          simp [parseRowStep, checkboxEntry, h1, h2, h3]

theorem parseRowStep_text (acc : RowTypes) (kv : String × Option String) :
    (parseRowStep acc kv).text_fields =
      match textEntry kv with
      | some lv => dictInsert acc.text_fields lv.1 lv.2
      | none => acc.text_fields := by
  obtain ⟨key, val⟩ := kv
  cases val with
  | none => rfl
  | some v =>
    by_cases h1 : pyStrip key = "" ∨ pyStrip v = ""
    · simp [parseRowStep, textEntry, h1]
    · by_cases h2 : pyEndsWith (pyLower (pyStrip key)) "(choice)"
      · simp [parseRowStep, textEntry, h1, h2]
      · by_cases h3 : pyEndsWith (pyLower (pyStrip key)) "(multi)" <;>
          simp [parseRowStep, textEntry, h1, h2, h3]

theorem foldl_parseRowStep_radio (row : List (String × Option String))
    (acc : RowTypes) :
    (row.foldl parseRowStep acc).radio_fields =
      (row.filterMap radioEntry).foldl
        (fun d kv => dictInsert d kv.1 kv.2) acc.radio_fields := by
  induction row generalizing acc with
  | nil => rfl
  | cons kv rest ih =>
    rw [List.foldl_cons, ih]
    cases h : radioEntry kv with
    | none => simp [List.filterMap_cons, h, parseRowStep_radio acc kv]
    | some lv => simp [List.filterMap_cons, h, parseRowStep_radio acc kv]

theorem foldl_parseRowStep_checkbox (row : List (String × Option String))
    (acc : RowTypes) :
    (row.foldl parseRowStep acc).checkbox_fields =
      (row.filterMap checkboxEntry).foldl
        (fun d kv => dictInsert d kv.1 kv.2) acc.checkbox_fields := by
  induction row generalizing acc with
  | nil => rfl
  | cons kv rest ih =>
    rw [List.foldl_cons, ih]
    cases h : checkboxEntry kv with
    | none => simp [List.filterMap_cons, h, parseRowStep_checkbox acc kv]
    | some lv => simp [List.filterMap_cons, h, parseRowStep_checkbox acc kv]

theorem foldl_parseRowStep_text (row : List (String × Option String))
    (acc : RowTypes) :
    (row.foldl parseRowStep acc).text_fields =
      (row.filterMap textEntry).foldl
        (fun d kv => dictInsert d kv.1 kv.2) acc.text_fields := by
  induction row generalizing acc with
  | nil => rfl
  | cons kv rest ih =>
    rw [List.foldl_cons, ih]
    cases h : textEntry kv with
    | none => simp [List.filterMap_cons, h, parseRowStep_text acc kv]
    | some lv => simp [List.filterMap_cons, h, parseRowStep_text acc kv]

theorem lookupKey_append {α : Type} (d e : List (String × α)) (k : String) :
    lookupKey (d ++ e) k =
      match lookupKey d k with
      | some v => some v
      | none => lookupKey e k := by
  induction d with
  | nil => simp [lookupKey]
  | cons kv rest ih =>
    by_cases h : kv.1 = k
    · simp [lookupKey, h]
    · simp [lookupKey, h, ih]

theorem buildDict_aux {α : Type} (entries : List (String × α)) :
    ∀ d : List (String × α),
    (∀ k ∈ entries.map Prod.fst, lookupKey d k = none) →
    (entries.map Prod.fst).Nodup →
    entries.foldl (fun d kv => dictInsert d kv.1 kv.2) d = d ++ entries := by
  induction entries with
  | nil => intro d _ _; simp
  | cons kv rest ih =>
    intro d hd hnd
    obtain ⟨k, v⟩ := kv
    have hk : lookupKey d k = none := hd k (by simp)
    have hins : dictInsert d k v = d ++ [(k, v)] := by
      simp [dictInsert, hk]
    rw [List.foldl_cons]
    simp only at hins
    rw [hins]
    have hnd' : (rest.map Prod.fst).Nodup := (List.nodup_cons.mp hnd).2
    have hknot : k ∉ rest.map Prod.fst := (List.nodup_cons.mp hnd).1
    have hd' : ∀ k' ∈ rest.map Prod.fst, lookupKey (d ++ [(k, v)]) k' = none := by
      intro k' hk'
      rw [lookupKey_append]
      have h1 : lookupKey d k' = none := hd k' (by simp [hk'])
      have h2 : k ≠ k' := fun h => hknot (h ▸ hk')
      simp [h1, lookupKey, h2]
    rw [ih (d ++ [(k, v)]) hd' hnd']
    simp

theorem buildDict_nodup_eq {α : Type} (entries : List (String × α))
    (hnd : (entries.map Prod.fst).Nodup) : buildDict entries = entries := by
  have := buildDict_aux entries [] (by simp [lookupKey]) hnd
  simpa [buildDict] using this

theorem lookupKey_of_mem_nodup {α : Type} {l : List (String × α)}
    {k : String} {v : α} (hnd : (l.map Prod.fst).Nodup)
    (hm : (k, v) ∈ l) : lookupKey l k = some v := by
  induction l with
  | nil => simp at hm
  | cons kv rest ih =>
    obtain ⟨k', v'⟩ := kv
    rcases List.mem_cons.mp hm with heq | hmem
    · injection heq with h1 h2
      subst h1
      subst h2
      simp [lookupKey]
    · by_cases h : k' = k
      · subst h
        exfalso
        exact (List.nodup_cons.mp hnd).1
          (List.mem_map.mpr ⟨(k', v), hmem, rfl⟩)
      · simp only [lookupKey, h, if_false]
        exact ih (List.nodup_cons.mp hnd).2 hmem

theorem parseRowStep_skip (acc : RowTypes) (kv : String × Option String)
    (h : kv.2 = none ∨ pyStrip kv.1 = "" ∨
      (∃ v, kv.2 = some v ∧ pyStrip v = "")) :
    parseRowStep acc kv = acc := by
  obtain ⟨key, val⟩ := kv
  cases val with
  | none => rfl
  | some v =>
    rcases h with h | h | ⟨v', hv', hv''⟩
    · simp at h
    · simp only at h
      simp [parseRowStep, h]
    · simp only [Option.some.injEq] at hv'
      subst hv'
      simp [parseRowStep, hv'']

/-! ### Claim C6: `parse_row_types` partitions cells by header suffix -/

/-- C6: for every CSV row, `parse_row_types` partitions the non-empty
cells by header suffix: a cell whose value is `None` or
empty-after-stripping, or whose header strips to empty, contributes
nothing to any output; a header ending case-insensitively in `(choice)`
yields a radio field labelled by the header with the last 8 characters
removed and stripped; a header ending case-insensitively in `(multi)`
yields a checkbox field whose value is the cell split on `;` with items
stripped and blanks dropped; every other header yields a free-text field
under the stripped header.  The dict lookups are stated under the
hypothesis that the derived labels of the relevant class are distinct
(as Python dicts, later duplicates would overwrite earlier values). -/
theorem claim_c6_parse_row_types :
    (∀ (row₁ row₂ : List (String × Option String)) (kv : String × Option String),
      (kv.2 = none ∨ pyStrip kv.1 = "" ∨
        (∃ v, kv.2 = some v ∧ pyStrip v = "")) →
      parse_row_types (row₁ ++ kv :: row₂) = parse_row_types (row₁ ++ row₂)) ∧
    (∀ (row : List (String × Option String)) (key val : String),
      (key, some val) ∈ row →
      pyStrip key ≠ "" → pyStrip val ≠ "" →
      pyEndsWith (pyLower (pyStrip key)) "(choice)" = true →
      ((row.filterMap radioEntry).map Prod.fst).Nodup →
      lookupKey (parse_row_types row).radio_fields
          (pyStrip (pyDropRight (pyStrip key) 8)) = some (pyStrip val)) ∧
    (∀ (row : List (String × Option String)) (key val : String),
      (key, some val) ∈ row →
      pyStrip key ≠ "" → pyStrip val ≠ "" →
      pyEndsWith (pyLower (pyStrip key)) "(choice)" = false →
      pyEndsWith (pyLower (pyStrip key)) "(multi)" = true →
      ((row.filterMap checkboxEntry).map Prod.fst).Nodup →
      lookupKey (parse_row_types row).checkbox_fields
          (pyStrip (pyDropRight (pyStrip key) 7)) =
        some (((pySplit (pyStrip val) ';').map pyStrip).filter (· ≠ ""))) ∧
    (∀ (row : List (String × Option String)) (key val : String),
      (key, some val) ∈ row →
      pyStrip key ≠ "" → pyStrip val ≠ "" →
      pyEndsWith (pyLower (pyStrip key)) "(choice)" = false →
      pyEndsWith (pyLower (pyStrip key)) "(multi)" = false →
      ((row.filterMap textEntry).map Prod.fst).Nodup →
      lookupKey (parse_row_types row).text_fields (pyStrip key) =
        some (pyStrip val)) := by
  refine ⟨?_, ?_, ?_, ?_⟩
  · intro row₁ row₂ kv h
    unfold parse_row_types
    rw [List.foldl_append, List.foldl_append, List.foldl_cons,
      parseRowStep_skip _ kv h]
  · intro row key val hm hk hv hc hnd
    have hentry : radioEntry (key, some val) =
        some (pyStrip (pyDropRight (pyStrip key) 8), pyStrip val) := by
      simp [radioEntry, hk, hv, hc]
    have hmem : (pyStrip (pyDropRight (pyStrip key) 8), pyStrip val) ∈
        row.filterMap radioEntry :=
      List.mem_filterMap.mpr ⟨(key, some val), hm, hentry⟩
    have hfold := foldl_parseRowStep_radio row ⟨[], [], []⟩
    unfold parse_row_types
    rw [hfold]
    have : (row.filterMap radioEntry).foldl
        (fun d kv => dictInsert d kv.1 kv.2) [] =
        row.filterMap radioEntry := buildDict_nodup_eq _ hnd
    rw [this]
    exact lookupKey_of_mem_nodup hnd hmem
  · intro row key val hm hk hv hc hmu hnd
    have hentry : checkboxEntry (key, some val) =
        some (pyStrip (pyDropRight (pyStrip key) 7),
          ((pySplit (pyStrip val) ';').map pyStrip).filter (· ≠ "")) := by
      simp [checkboxEntry, hk, hv, hc, hmu]
    have hmem := List.mem_filterMap.mpr ⟨(key, some val), hm, hentry⟩
    have hfold := foldl_parseRowStep_checkbox row ⟨[], [], []⟩
    unfold parse_row_types
    rw [hfold]
    have heq : (row.filterMap checkboxEntry).foldl
        (fun d kv => dictInsert d kv.1 kv.2) [] =
        row.filterMap checkboxEntry := buildDict_nodup_eq _ hnd
    rw [heq]
    exact lookupKey_of_mem_nodup hnd hmem
  · intro row key val hm hk hv hc hmu hnd
    have hentry : textEntry (key, some val) =
        some (pyStrip key, pyStrip val) := by
      simp [textEntry, hk, hv, hc, hmu]
    have hmem := List.mem_filterMap.mpr ⟨(key, some val), hm, hentry⟩
    have hfold := foldl_parseRowStep_text row ⟨[], [], []⟩
    unfold parse_row_types
    rw [hfold]
    have heq : (row.filterMap textEntry).foldl
        (fun d kv => dictInsert d kv.1 kv.2) [] =
        row.filterMap textEntry := buildDict_nodup_eq _ hnd
    rw [heq]
    exact lookupKey_of_mem_nodup hnd hmem

/-- Sample row for the C6 witness: a free-text column, a `(choice)`
column, a `(multi)` column, a blank header and a `None` cell. -/
def sampleRow : List (String × Option String) :=
  [("Name", some "Ada"), ("Email (choice)", some "ada@example.org"),
   ("Tags (multi)", some "x; ;y"), ("  ", some "z"), ("Skip", none)]

/-- C6, witness for `claim_c6_parse_row_types`: on `sampleRow`, `Email`
becomes a radio field, `Tags` a checkbox field with blanks dropped,
`Name` a free-text field, and the `None` cell contributes nothing. -/
theorem claim_c6_parse_row_types_witness :
    lookupKey (parse_row_types sampleRow).radio_fields "Email" =
      some "ada@example.org" ∧
    lookupKey (parse_row_types sampleRow).checkbox_fields "Tags" =
      some ["x", "y"] ∧
    lookupKey (parse_row_types sampleRow).text_fields "Name" = some "Ada" ∧
    parse_row_types ([("Name", some "Ada")] ++ ("Skip", none) :: []) =
      parse_row_types ([("Name", some "Ada")] ++ []) :=
  ⟨claim_c6_parse_row_types.2.1 sampleRow "Email (choice)" "ada@example.org"
      (by decide) (by decide) (by decide) (by decide) (by decide),
   claim_c6_parse_row_types.2.2.1 sampleRow "Tags (multi)" "x; ;y"
      (by decide) (by decide) (by decide) (by decide) (by decide) (by decide),
   claim_c6_parse_row_types.2.2.2 sampleRow "Name" "Ada"
      (by decide) (by decide) (by decide) (by decide) (by decide) (by decide),
   claim_c6_parse_row_types.1 [("Name", some "Ada")] [] ("Skip", none)
      (Or.inl rfl)⟩

/-! ## Google-Forms page model for `prac/main.py`

A rendered form is a list of question containers (`div[@role='listitem']`).
Each container records the normalized texts of its descendants (used to
scope searches to the question block), its text inputs/textareas, and its
ARIA checkbox widgets.  Element order models document order; elements
outside any question block can be modelled by a container with no texts,
which no label ever matches. -/

/-- Tag of a text-entry control. -/
inductive GTag
  | input
  | textarea
deriving DecidableEq

/-- A text input or textarea with its `aria-label`. -/
structure GInput where
  tag : GTag
  ariaLabel : String
deriving DecidableEq

/-- An ARIA checkbox widget (`div[@role='checkbox']`), identified by a
model id, with its `aria-label` and current `aria-checked` attribute. -/
structure GCheckbox where
  id : Nat
  ariaLabel : String
  ariaChecked : String
deriving DecidableEq

/-- One question container (`div[@role='listitem']`). -/
structure GContainer where
  texts : List String
  inputs : List GInput
  boxes : List GCheckbox
deriving DecidableEq

/-- All text controls, in document order. -/
def allInputs (pg : List GContainer) : List GInput :=
  (pg.map GContainer.inputs).flatten

/-- All checkbox widgets, in document order. -/
def allBoxes (pg : List GContainer) : List GCheckbox :=
  (pg.map GContainer.boxes).flatten

/-! ## `_candidate_label_variants` and `fill_text_field`
(`prac/main.py`, lines 66-70 and 105-144) -/

/-- `_candidate_label_variants(label)`: the four decoration variants a
Google-Forms renderer may produce. -/
def candidate_label_variants (label : String) : List String :=
  let base := pyStrip label
  [base, base ++ " (Required)", base ++ " *", base ++ "*"]

/-- `_find_in_question_container` specialised to the inner XPath
`.//input | .//textarea`: the first text control of the first container
matching the label that has one. -/
def findInContainerAnyInput : List GContainer → String → Option GInput
  | [], _ => none
  | c :: rest, label =>
    if label ∈ c.texts then
      match c.inputs with
      | el :: _ => some el
      | [] => findInContainerAnyInput rest label
    else findInContainerAnyInput rest label

/-- One of the global XPath locators `fill_text_field` builds: an exact
or substring `aria-label` match on a given tag. -/
inductive Locator
  | exact (tag : GTag) (v : String)
  | containsLbl (tag : GTag) (v : String)

/-- Whether a text control matches a locator. -/
def locatorMatches (loc : Locator) (el : GInput) : Bool :=
  match loc with
  | .exact t v => decide (el.tag = t) && decide (el.ariaLabel = v)
  | .containsLbl t v => decide (el.tag = t) && strContains el.ariaLabel v

/-- The global locator list of `fill_text_field`: for each label variant,
exact input, exact textarea, contains input, contains textarea. -/
def globalLocators (label : String) : List Locator :=
  (candidate_label_variants label).flatMap fun v =>
    [.exact .input v, .exact .textarea v,
     .containsLbl .input v, .containsLbl .textarea v]

/-- `fill_text_field(driver, label, value)` as a location outcome: the
container scan over the variants is tried first, then the global
locators; `true` means a control was found (and the value sent to it). -/
def fill_text_field (pg : List GContainer) (label : String) : Bool :=
  if (candidate_label_variants label).any
      (fun v => (findInContainerAnyInput pg v).isSome) then
    true
  else
    (globalLocators label).any
      (fun loc => ((allInputs pg).find? (locatorMatches loc)).isSome)

/-! ### Claim C7: every decoration variant of a label is found -/

/-- C7: the candidate variant list is exactly the four decorations of the
stripped label, and whenever the page has a text input or textarea whose
`aria-label` equals any one of these variants, `fill_text_field` locates
a control and returns `True`. -/
theorem claim_c7_label_variants :
    (∀ label : String, candidate_label_variants label =
      [pyStrip label, pyStrip label ++ " (Required)",
       pyStrip label ++ " *", pyStrip label ++ "*"]) ∧
    (∀ (pg : List GContainer) (label v : String) (el : GInput),
      v ∈ candidate_label_variants label → el ∈ allInputs pg →
      el.ariaLabel = v → fill_text_field pg label = true) := by
  constructor
  · intro label
    rfl
  · intro pg label v el hv hel hlbl
    unfold fill_text_field
    by_cases hc : (candidate_label_variants label).any
        (fun w => (findInContainerAnyInput pg w).isSome)
    · simp [hc]
    · rw [if_neg hc, List.any_eq_true]
      refine ⟨Locator.exact el.tag v, ?_, ?_⟩
      · unfold globalLocators
        rw [List.mem_flatMap]
        refine ⟨v, hv, ?_⟩
        cases htag : el.tag <;> simp [htag]
      · rw [List.find?_isSome]
        exact ⟨el, hel, by simp [locatorMatches, hlbl]⟩

/-- Sample page for the C7 witness: one input labelled with the
`(Required)` decoration of `Email`. -/
def samplePage : List GContainer :=
  [⟨[], [⟨GTag.input, "Email (Required)"⟩], []⟩]

/-- C7, witness for `claim_c7_label_variants`: the decorated control is
found under the plain label `Email`. -/
theorem claim_c7_label_variants_witness :
    fill_text_field samplePage "Email" = true :=
  claim_c7_label_variants.2 samplePage "Email" "Email (Required)"
    ⟨GTag.input, "Email (Required)"⟩ (by decide) (by decide) rfl

/-! ## `select_checkboxes` (`prac/main.py`, lines 167-191)

Clicking an ARIA checkbox toggles its `aria-checked` attribute between
`"true"` and `"false"`; `select_checkboxes` guards each click with
`if aria_checked != "true"`. -/

/-- The effect of `el.click()` on the checkbox with the given id. -/
def toggleIf (i : Nat) (b : GCheckbox) : GCheckbox :=
  if b.id = i then
    { b with ariaChecked := if b.ariaChecked = "true" then "false" else "true" }
  else b

/-- Page state after clicking the checkbox with the given id. -/
def clickBox (pg : List GContainer) (i : Nat) : List GContainer :=
  pg.map fun c => { c with boxes := c.boxes.map (toggleIf i) }

/-- `_find_in_question_container` specialised to the inner XPath
`.//div[@role='checkbox' and @aria-label=opt]`: the first matching
checkbox of the first matching container that has one. -/
def findBoxInContainers : List GContainer → String → String → Option GCheckbox
  | [], _, _ => none
  | c :: rest, qlabel, opt =>
    if qlabel ∈ c.texts then
      match c.boxes.find? (fun b => decide (b.ariaLabel = opt)) with
      | some b => some b
      | none => findBoxInContainers rest qlabel opt
    else findBoxInContainers rest qlabel opt

/-- The checkbox-location fallback chain of `select_checkboxes`:
container scan, then global exact `aria-label` match, then global
substring match. -/
def locateCheckbox (pg : List GContainer) (qlabel opt : String) :
    Option GCheckbox :=
  match findBoxInContainers pg qlabel opt with
  | some b => some b
  | none =>
    match (allBoxes pg).find? (fun b => decide (b.ariaLabel = opt)) with
    | some b => some b
    | none => (allBoxes pg).find? (fun b => strContains b.ariaLabel opt)

/-- One iteration of the `for opt in option_values` loop of
`select_checkboxes`, threading page state, click count and the success
flag. -/
def selectStep (qlabel : String) (acc : List GContainer × Nat × Bool)
    (rawOpt : String) : List GContainer × Nat × Bool :=
  let opt := pyStrip rawOpt
  if opt = "" then acc
  else
    match locateCheckbox acc.1 qlabel opt with
    | some b =>
      if b.ariaChecked ≠ "true" then (clickBox acc.1 b.id, acc.2.1 + 1, acc.2.2)
      else acc
    | none => (acc.1, acc.2.1, false)

/-- `select_checkboxes(driver, question_label, option_values)`, returning
the final page state, the number of clicks performed, and the returned
success flag. -/
def select_checkboxes (pg : List GContainer) (qlabel : String)
    (opts : List String) : List GContainer × Nat × Bool :=
  opts.foldl (selectStep qlabel) (pg, 0, true)

/-! ### Structural facts about clicking and locating -/

theorem toggleIf_ariaLabel (i : Nat) (b : GCheckbox) :
    (toggleIf i b).ariaLabel = b.ariaLabel := by
  unfold toggleIf
  by_cases h : b.id = i <;> simp [h]

theorem toggleIf_id (i : Nat) (b : GCheckbox) :
    (toggleIf i b).id = b.id := by
  unfold toggleIf
  by_cases h : b.id = i <;> simp [h]

theorem allBoxes_clickBox (pg : List GContainer) (i : Nat) :
    allBoxes (clickBox pg i) = (allBoxes pg).map (toggleIf i) := by
  unfold allBoxes clickBox
  rw [List.map_map, List.map_flatten, List.map_map]
  rfl

theorem find?_toggleIf_label (bs : List GCheckbox) (i : Nat) (opt : String) :
    (bs.map (toggleIf i)).find? (fun b => decide (b.ariaLabel = opt)) =
      (bs.find? (fun b => decide (b.ariaLabel = opt))).map (toggleIf i) := by
  rw [List.find?_map]
  have hp : ((fun b => decide (b.ariaLabel = opt)) ∘ toggleIf i) =
      (fun b : GCheckbox => decide (b.ariaLabel = opt)) := by
    funext b
    simp [Function.comp, toggleIf_ariaLabel]
  rw [hp]

theorem find?_toggleIf_contains (bs : List GCheckbox) (i : Nat) (opt : String) :
    (bs.map (toggleIf i)).find? (fun b => strContains b.ariaLabel opt) =
      (bs.find? (fun b => strContains b.ariaLabel opt)).map (toggleIf i) := by
  rw [List.find?_map]
  have hp : ((fun b => strContains b.ariaLabel opt) ∘ toggleIf i) =
      (fun b : GCheckbox => strContains b.ariaLabel opt) := by
    funext b
    simp [Function.comp, toggleIf_ariaLabel]
  rw [hp]

theorem findBoxInContainers_clickBox (pg : List GContainer) (i : Nat)
    (qlabel opt : String) :
    findBoxInContainers (clickBox pg i) qlabel opt =
      (findBoxInContainers pg qlabel opt).map (toggleIf i) := by
  induction pg with
  | nil => rfl
  | cons c rest ih =>
    show findBoxInContainers
      ({ c with boxes := c.boxes.map (toggleIf i) } ::
        (clickBox rest i)) qlabel opt = _
    unfold findBoxInContainers
    by_cases ht : qlabel ∈ c.texts
    · simp only [ht, if_true]
      rw [find?_toggleIf_label]
      cases h : c.boxes.find? (fun b => decide (b.ariaLabel = opt)) with
      | none => simpa [h] using ih
      | some b => simp [h]
    · simp only [ht, if_false]
      exact ih

theorem locateCheckbox_clickBox (pg : List GContainer) (i : Nat)
    (qlabel opt : String) :
    locateCheckbox (clickBox pg i) qlabel opt =
      (locateCheckbox pg qlabel opt).map (toggleIf i) := by
  unfold locateCheckbox
  rw [findBoxInContainers_clickBox, allBoxes_clickBox,
    find?_toggleIf_label, find?_toggleIf_contains]
  cases findBoxInContainers pg qlabel opt with
  | some b => rfl
  | none =>
    cases (allBoxes pg).find? (fun b => decide (b.ariaLabel = opt)) with
    | some b => rfl
    | none => rfl

theorem findBoxInContainers_mem {pg : List GContainer} {qlabel opt : String}
    {b : GCheckbox} (h : findBoxInContainers pg qlabel opt = some b) :
    b ∈ allBoxes pg := by
  induction pg with
  | nil => simp [findBoxInContainers] at h
  | cons c rest ih =>
    unfold findBoxInContainers at h
    have hsub : b ∈ allBoxes rest → b ∈ allBoxes (c :: rest) := by
      intro hm
      unfold allBoxes at hm ⊢
      simp only [List.map_cons, List.flatten_cons, List.mem_append]
      exact Or.inr hm
    by_cases ht : qlabel ∈ c.texts
    · simp only [ht, if_true] at h
      cases hf : c.boxes.find? (fun x => decide (x.ariaLabel = opt)) with
      | some b' =>
        rw [hf, Option.some.injEq] at h
        rw [← h]
        have hmem : b' ∈ c.boxes := List.mem_of_find?_eq_some hf
        unfold allBoxes
        simp only [List.map_cons, List.flatten_cons, List.mem_append]
        exact Or.inl hmem
      | none =>
        rw [hf] at h
        exact hsub (ih h)
    · simp only [ht, if_false] at h
      exact hsub (ih h)

theorem locateCheckbox_mem {pg : List GContainer} {qlabel opt : String}
    {b : GCheckbox} (h : locateCheckbox pg qlabel opt = some b) :
    b ∈ allBoxes pg := by
  unfold locateCheckbox at h
  cases hf : findBoxInContainers pg qlabel opt with
  | some b' =>
    rw [hf, Option.some.injEq] at h
    exact h ▸ findBoxInContainers_mem hf
  | none =>
    rw [hf] at h
    cases hg : (allBoxes pg).find? (fun x => decide (x.ariaLabel = opt)) with
    | some b' =>
      rw [hg, Option.some.injEq] at h
      exact h ▸ List.mem_of_find?_eq_some hg
    | none =>
      rw [hg] at h
      exact List.mem_of_find?_eq_some h

theorem ids_clickBox (pg : List GContainer) (i : Nat) :
    (allBoxes (clickBox pg i)).map GCheckbox.id =
      (allBoxes pg).map GCheckbox.id := by
  rw [allBoxes_clickBox, List.map_map]
  congr 1
  funext b
  simp [Function.comp, toggleIf_id]

/-! ### Pass-level lemmas for `select_checkboxes` -/

/-- Every control the locator can return for this option is already in
the checked state. -/
def Checked (pg : List GContainer) (qlabel o : String) : Prop :=
  ∀ b, locateCheckbox pg qlabel o = some b → b.ariaChecked = "true"

/-- The success flag `select_checkboxes` computes: every non-blank option
is locatable. -/
def foundAll (pg : List GContainer) (qlabel : String)
    (opts : List String) : Bool :=
  opts.all fun r =>
    decide (pyStrip r = "") || (locateCheckbox pg qlabel (pyStrip r)).isSome

theorem all_congr' {α : Type} {l : List α} {f g : α → Bool}
    (h : ∀ x ∈ l, f x = g x) : l.all f = l.all g := by
  induction l with
  | nil => rfl
  | cons x xs ih =>
    rw [List.all_cons, List.all_cons, h x (List.mem_cons_self x xs),
      ih (fun y hy => h y (List.mem_cons_of_mem x hy))]

theorem clickBox_checked_self {p : List GContainer} {q o : String}
    {b : GCheckbox} (hb : locateCheckbox p q o = some b)
    (hne : b.ariaChecked ≠ "true") : Checked (clickBox p b.id) q o := by
  intro b' h'
  rw [locateCheckbox_clickBox, hb, Option.map_some'] at h'
  rw [Option.some.injEq] at h'
  rw [← h']
  simp [toggleIf, hne]

theorem clickBox_preserve_checked {p : List GContainer} {q o : String}
    {b : GCheckbox} (hnd : ((allBoxes p).map GCheckbox.id).Nodup)
    (hbmem : b ∈ allBoxes p) (hbne : b.ariaChecked ≠ "true")
    (hc : Checked p q o) : Checked (clickBox p b.id) q o := by
  intro b' h'
  rw [locateCheckbox_clickBox] at h'
  cases hl : locateCheckbox p q o with
  | none =>
    rw [hl] at h'
    simp at h'
  | some c =>
    rw [hl, Option.map_some', Option.some.injEq] at h'
    have hct := hc c hl
    by_cases hid : c.id = b.id
    · have hcb : c = b :=
        List.inj_on_of_nodup_map hnd (locateCheckbox_mem hl) hbmem hid
      rw [hcb] at hct
      exact absurd hct hbne
    · rw [← h']
      simp [toggleIf, hid, hct]

theorem pass_post (q : String) (opts : List String) :
    ∀ (p : List GContainer) (n : Nat) (s : Bool),
    ((allBoxes p).map GCheckbox.id).Nodup →
    ((allBoxes (opts.foldl (selectStep q) (p, n, s)).1).map GCheckbox.id =
        (allBoxes p).map GCheckbox.id) ∧
    (∀ o, (locateCheckbox (opts.foldl (selectStep q) (p, n, s)).1 q o).isSome =
        (locateCheckbox p q o).isSome) ∧
    (∀ o, Checked p q o →
        Checked (opts.foldl (selectStep q) (p, n, s)).1 q o) ∧
    (∀ r ∈ opts, pyStrip r ≠ "" →
        Checked (opts.foldl (selectStep q) (p, n, s)).1 q (pyStrip r)) ∧
    ((opts.foldl (selectStep q) (p, n, s)).2.2 = (s && foundAll p q opts)) := by
  induction opts with
  | nil =>
    intro p n s _
    refine ⟨rfl, fun o => rfl, fun o hc => hc, by simp, ?_⟩
    simp [foundAll]
  | cons r rest ih =>
    intro p n s hnd
    rw [List.foldl_cons]
    by_cases hopt : pyStrip r = ""
    · have hstep : selectStep q (p, n, s) r = (p, n, s) := by
        simp [selectStep, hopt]
      rw [hstep]
      obtain ⟨ih1, ih2, ih3, ih4, ih5⟩ := ih p n s hnd
      refine ⟨ih1, ih2, ih3, ?_, ?_⟩
      · intro r' hr' hne
        rcases List.mem_cons.mp hr' with rfl | hr'
        · exact absurd hopt hne
        · exact ih4 r' hr' hne
      · rw [ih5]
        have : foundAll p q (r :: rest) = foundAll p q rest := by
          simp [foundAll, List.all_cons, hopt]
        rw [this]
    · cases hl : locateCheckbox p q (pyStrip r) with
      | none =>
        have hstep : selectStep q (p, n, s) r = (p, n, false) := by
          simp [selectStep, hopt, hl]
        rw [hstep]
        obtain ⟨ih1, ih2, ih3, ih4, ih5⟩ := ih p n false hnd
        refine ⟨ih1, ih2, ih3, ?_, ?_⟩
        · intro r' hr' hne
          rcases List.mem_cons.mp hr' with rfl | hr'
          · intro b hb
            have h2 := ih2 (pyStrip r')
            rw [hb, hl] at h2
            simp at h2
          · exact ih4 r' hr' hne
        · rw [ih5]
          have hno : foundAll p q (r :: rest) = false := by
            simp [foundAll, List.all_cons, hopt, hl]
          rw [hno]
          cases s <;> cases foundAll p q rest <;> rfl
      | some b =>
        by_cases hattr : b.ariaChecked = "true"
        · have hstep : selectStep q (p, n, s) r = (p, n, s) := by
            simp [selectStep, hopt, hl, hattr]
          rw [hstep]
          obtain ⟨ih1, ih2, ih3, ih4, ih5⟩ := ih p n s hnd
          have hcheck : Checked p q (pyStrip r) := by
            intro b' hb'
            rw [hl, Option.some.injEq] at hb'
            rw [← hb']
            exact hattr
          refine ⟨ih1, ih2, ih3, ?_, ?_⟩
          · intro r' hr' hne
            rcases List.mem_cons.mp hr' with rfl | hr'
            · exact ih3 (pyStrip r') hcheck
            · exact ih4 r' hr' hne
          · rw [ih5]
            have : foundAll p q (r :: rest) = foundAll p q rest := by
              simp [foundAll, List.all_cons, hl]
            rw [this]
        · have hstep : selectStep q (p, n, s) r =
              (clickBox p b.id, n + 1, s) := by
            simp [selectStep, hopt, hl, hattr]
          rw [hstep]
          have hnd' : ((allBoxes (clickBox p b.id)).map GCheckbox.id).Nodup := by
            rw [ids_clickBox]
            exact hnd
          obtain ⟨ih1, ih2, ih3, ih4, ih5⟩ := ih (clickBox p b.id) (n + 1) s hnd'
          have hbmem : b ∈ allBoxes p := locateCheckbox_mem hl
          have hloc : ∀ o, (locateCheckbox (clickBox p b.id) q o).isSome =
              (locateCheckbox p q o).isSome := by
            intro o
            rw [locateCheckbox_clickBox]
            cases locateCheckbox p q o <;> rfl
          refine ⟨?_, ?_, ?_, ?_, ?_⟩
          · rw [ih1, ids_clickBox]
          · intro o
            rw [ih2 o, hloc o]
          · intro o hc
            exact ih3 o (clickBox_preserve_checked hnd hbmem hattr hc)
          · intro r' hr' hne
            rcases List.mem_cons.mp hr' with rfl | hr'
            · exact ih3 (pyStrip r') (clickBox_checked_self hl hattr)
            · exact ih4 r' hr' hne
          · rw [ih5]
            have hfa : foundAll (clickBox p b.id) q rest = foundAll p q rest := by
              unfold foundAll
              exact all_congr' (fun x _ => by rw [hloc (pyStrip x)])
            rw [hfa]
            have : foundAll p q (r :: rest) = foundAll p q rest := by
              simp [foundAll, List.all_cons, hl]
            rw [this]

theorem pass_noop (q : String) (opts : List String) :
    ∀ (p : List GContainer) (n : Nat) (s : Bool),
    (∀ r ∈ opts, pyStrip r ≠ "" → Checked p q (pyStrip r)) →
    opts.foldl (selectStep q) (p, n, s) = (p, n, s && foundAll p q opts) := by
  induction opts with
  | nil =>
    intro p n s _
    simp [foundAll]
  | cons r rest ih =>
    intro p n s hch
    rw [List.foldl_cons]
    have hch' : ∀ r' ∈ rest, pyStrip r' ≠ "" → Checked p q (pyStrip r') :=
      fun r' hr' => hch r' (List.mem_cons_of_mem r hr')
    by_cases hopt : pyStrip r = ""
    · have hstep : selectStep q (p, n, s) r = (p, n, s) := by
        simp [selectStep, hopt]
      rw [hstep, ih p n s hch']
      have : foundAll p q (r :: rest) = foundAll p q rest := by
        simp [foundAll, List.all_cons, hopt]
      rw [this]
    · cases hl : locateCheckbox p q (pyStrip r) with
      | none =>
        have hstep : selectStep q (p, n, s) r = (p, n, false) := by
          simp [selectStep, hopt, hl]
        rw [hstep, ih p n false hch']
        have hno : foundAll p q (r :: rest) = false := by
          simp [foundAll, List.all_cons, hopt, hl]
        rw [hno]
        cases s <;> cases foundAll p q rest <;> rfl
      | some b =>
        have hattr : b.ariaChecked = "true" :=
          hch r (List.mem_cons_self r rest) hopt b hl
        have hstep : selectStep q (p, n, s) r = (p, n, s) := by
          simp [selectStep, hopt, hl, hattr]
        rw [hstep, ih p n s hch']
        have : foundAll p q (r :: rest) = foundAll p q rest := by
          simp [foundAll, List.all_cons, hl]
        rw [this]

/-! ### Claim C5: checkbox filling never toggles off and is idempotent -/

/-- C5: `select_checkboxes` clicks a located control only when its
`aria-checked` attribute is not `"true"` (an already-checked control
produces no click and no state change), and — provided the page's
checkbox ids are distinct — invoking the whole check a second time
performs zero clicks, leaves the page unchanged, and reports the same
success flag. -/
theorem claim_c5_checkbox_idempotent :
    (∀ (p : List GContainer) (q r : String) (n : Nat) (s : Bool)
      (b : GCheckbox),
      locateCheckbox p q (pyStrip r) = some b → b.ariaChecked = "true" →
      selectStep q (p, n, s) r = (p, n, s)) ∧
    (∀ (pg : List GContainer) (q : String) (opts : List String),
      ((allBoxes pg).map GCheckbox.id).Nodup →
      select_checkboxes (select_checkboxes pg q opts).1 q opts =
        ((select_checkboxes pg q opts).1, 0,
         (select_checkboxes pg q opts).2.2)) := by
  constructor
  · intro p q r n s b hl hattr
    by_cases hopt : pyStrip r = ""
    · simp [selectStep, hopt]
    · simp [selectStep, hopt, hl, hattr]
  · intro pg q opts hnd
    obtain ⟨h1, h2, _, h4, h5⟩ := pass_post q opts pg 0 true hnd
    unfold select_checkboxes
    have hnoop := pass_noop q opts (opts.foldl (selectStep q) (pg, 0, true)).1
      0 true h4
    rw [hnoop]
    have hfa : foundAll (opts.foldl (selectStep q) (pg, 0, true)).1 q opts =
        foundAll pg q opts := by
      unfold foundAll
      exact all_congr' (fun x _ => by rw [h2 (pyStrip x)])
    rw [hfa, Bool.true_and, h5, Bool.true_and]

/-- Sample page for the C5 witness: one question block with an unchecked
box `A` and an already-checked box `B`. -/
def checkboxPage : List GContainer :=
  [⟨["Pick"], [], [⟨0, "A", "false"⟩, ⟨1, "B", "true"⟩]⟩]

/-- C5, witness for `claim_c5_checkbox_idempotent`: running the check a
second time on the page produced by the first run clicks nothing and
changes nothing. -/
theorem claim_c5_checkbox_idempotent_witness :
    select_checkboxes (select_checkboxes checkboxPage "Pick" ["A", "B"]).1
        "Pick" ["A", "B"] =
      ((select_checkboxes checkboxPage "Pick" ["A", "B"]).1, 0,
       (select_checkboxes checkboxPage "Pick" ["A", "B"]).2.2) :=
  claim_c5_checkbox_idempotent.2 checkboxPage "Pick" ["A", "B"] (by decide)

/-! ## `wait_for_success` (`prac/normalforms/form_filler/filler.py`,
lines 153-234)

The page state records the current URL, the normalized texts of visible
elements, the selectors that would appear within the wait timeout, the
counts of `input, textarea` elements and of submit buttons, and the
`First Name` field's current value (`none` when no such field exists). -/

/-- Airtable-filler page state, as read by `wait_for_success`. -/
structure APage where
  url : String
  texts : List String
  selectors : List String
  inputCount : Nat
  submitCount : Nat
  firstName : Option String
deriving DecidableEq

/-- The `page` section of the filler's configuration. -/
structure AConfig where
  success_selector : Option String
  success_url_contains : Option String
deriving DecidableEq

/-- How `wait_for_success` returned (which of the detection steps fired,
or `unknown` when none did). -/
inductive WaitOutcome
  | selector
  | urlMatch
  | textPattern (p : String)
  | noFields
  | noSubmit
  | clearedField
  | unknown
deriving DecidableEq

/-- The affirmative text patterns scanned by default. -/
def success_patterns : List String :=
  ["thank you", "thanks", "submitted", "response", "success",
   "form submitted", "thank you for"]

/-- Case-insensitive substring match (`text=/pattern/i` on literal
patterns). -/
def containsCI (t p : String) : Bool :=
  strContains (pyLower t) (pyLower p)

/-- Whether the configured success selector is set (truthy) and appears
within the timeout. -/
def selectorSignals (pg : APage) (cfg : AConfig) : Bool :=
  match cfg.success_selector with
  | some sel => ¬(sel = "") && decide (sel ∈ pg.selectors)
  | none => false

/-- The error message raised when a configured URL substring is absent. -/
def urlErrMsg (sub url : String) : String :=
  "Expected URL to contain " ++ sqS ++ sub ++ sqS ++ ", got: " ++ url

/-- The pattern scan and the fallback heuristics of `wait_for_success`
(everything after the two configured checks). -/
def waitDefaultChecks (pg : APage) : Except String WaitOutcome :=
  match success_patterns.find? (fun p => pg.texts.any (fun t => containsCI t p)) with
  | some p => .ok (.textPattern p)
  | none =>
    if pg.inputCount = 0 then .ok .noFields
    else if pg.submitCount = 0 then .ok .noSubmit
    else
      match pg.firstName with
      | some v => if v = "" then .ok .clearedField else .ok .unknown
      | none => .ok .unknown

/-- `wait_for_success(page, config, timeout)`: `.ok` models a normal
return (with the step that fired), `.error` models a raised
`PlaywrightTimeoutError`. -/
def wait_for_success (pg : APage) (cfg : AConfig) : Except String WaitOutcome :=
  if selectorSignals pg cfg then .ok .selector
  else
    let sub := cfg.success_url_contains.getD ""
    if sub ≠ "" then
      if strContains pg.url sub then .ok .urlMatch
      else .error (urlErrMsg sub pg.url)
    else waitDefaultChecks pg

/-! ### Claim C3: behaviour when no success indicator signals -/

/-- Page on which no success indicator signals: unrelated URL, no
affirmative text, fields and submit button still present, First Name
still filled. -/
def unknownPage : APage :=
  ⟨"https://example.org/form", ["Fill in the form"], [], 3, 1, some "Ada"⟩

/-- Config with a URL-substring success indicator. -/
def urlCfg : AConfig := ⟨none, some "thanks"⟩

/-- C3, counterexample: the claim says that whenever no success indicator
signals, `wait_for_success` returns normally and never raises.  But when
`success_url_contains` is configured and the URL does not contain it,
the function raises a timeout error immediately — without trying the
text patterns or the fallback heuristics — even though on this page no
indicator signals. -/
theorem claim_c3_counterexample :
    wait_for_success unknownPage urlCfg =
      .error (urlErrMsg "thanks" "https://example.org/form") := by
  rfl

/-- C3, amended: when no success indicator signals and no
`success_url_contains` is configured (unset or empty), `wait_for_success`
returns normally, classifying the outcome as unknown rather than as an
error; but when a `success_url_contains` is configured and the current
URL does not contain it (and the configured selector did not signal),
the function raises a timeout error without trying the remaining
heuristics. -/
theorem claim_c3_wait_for_success :
    (∀ (pg : APage) (cfg : AConfig),
      selectorSignals pg cfg = false →
      (cfg.success_url_contains = none ∨ cfg.success_url_contains = some "") →
      (∀ p ∈ success_patterns, ∀ t ∈ pg.texts, containsCI t p = false) →
      pg.inputCount ≠ 0 → pg.submitCount ≠ 0 →
      (∀ v, pg.firstName = some v → v ≠ "") →
      wait_for_success pg cfg = .ok .unknown) ∧
    (∀ (pg : APage) (cfg : AConfig) (sub : String),
      selectorSignals pg cfg = false →
      cfg.success_url_contains = some sub → sub ≠ "" →
      strContains pg.url sub = false →
      wait_for_success pg cfg = .error (urlErrMsg sub pg.url)) := by
  constructor
  · intro pg cfg hsel hurl hpat hin hsub hfn
    have hdef : waitDefaultChecks pg = .ok .unknown := by
      unfold waitDefaultChecks
      have hfind : success_patterns.find?
          (fun p => pg.texts.any (fun t => containsCI t p)) = none := by
        rw [List.find?_eq_none]
        intro p hp
        rw [Bool.not_eq_true, List.any_eq_false]
        intro t ht
        simp [hpat p hp t ht]
      rw [hfind]
      rw [if_neg hin, if_neg hsub]
      cases hf : pg.firstName with
      | none => rfl
      | some v =>
        have := hfn v hf
        simp [this]
    unfold wait_for_success
    rw [if_neg (by simp [hsel])]
    have hsub : cfg.success_url_contains.getD "" = "" := by
      rcases hurl with h | h <;> rw [h] <;> rfl
    simp only [hsub]
    rw [if_neg (by simp)]
    exact hdef
  · intro pg cfg sub hsel hurl hne hcont
    unfold wait_for_success
    rw [if_neg (by simp [hsel])]
    have hsub : cfg.success_url_contains.getD "" = sub := by
      rw [hurl]
      rfl
    simp only [hsub]
    rw [if_pos hne]
    rw [if_neg (by simp [hcont])]

/-- C3, witness for `claim_c3_wait_for_success`: with no URL indicator
configured and nothing signalling, the function returns normally with
the unknown outcome; with `urlCfg` it raises. -/
theorem claim_c3_wait_for_success_witness :
    wait_for_success unknownPage ⟨none, none⟩ = .ok .unknown ∧
    wait_for_success unknownPage urlCfg =
      .error (urlErrMsg "thanks" "https://example.org/form") :=
  ⟨claim_c3_wait_for_success.1 unknownPage ⟨none, none⟩ (by decide)
      (Or.inl rfl) (by decide) (by decide) (by decide) (by decide),
   claim_c3_wait_for_success.2 unknownPage urlCfg "thanks" (by decide)
      rfl (by decide) (by decide)⟩

/-! ## Python values

The dynamically typed values that flow through the data files and the
fallback guesser: `None`, strings and (possibly nested) lists. -/

/-- A Python value as used by the scripts' data dictionaries. -/
inductive PyVal
  | none
  | str (s : String)
  | list (xs : List PyVal)

/-- Python truthiness. -/
def pyTruthy : PyVal → Bool
  | .none => false
  | .str s => decide (s ≠ "")
  | .list [] => false
  | .list (_ :: _) => true

/-- Python `a or b`. -/
def pyOr (a b : PyVal) : PyVal :=
  if pyTruthy a then a else b

mutual

/-- Python `repr` (ignoring escape sequences inside strings). -/
def pyRepr : PyVal → String
  | .none => "None"
  | .str s => sqS ++ s ++ sqS
  | .list xs => "[" ++ pyReprList xs ++ "]"

/-- `", ".join` of the element reprs of a list. -/
def pyReprList : List PyVal → String
  | [] => ""
  | [x] => pyRepr x
  | x :: y :: rest => pyRepr x ++ ", " ++ pyReprList (y :: rest)

end

/-- Python `str()`. -/
def pyStr : PyVal → String
  | .str s => s
  | v => pyRepr v

/-- Python `a + b`; concatenation is defined for two strings or two
lists, anything else raises a `TypeError`. -/
def pyAdd : PyVal → PyVal → Except String PyVal
  | .str a, .str b => .ok (.str (a ++ b))
  | .list a, .list b => .ok (.list (a ++ b))
  | _, _ => .error "TypeError"

/-- Whether a value is a Python list (`isinstance(v, list)`). -/
def isList : PyVal → Bool
  | .list _ => true
  | _ => false

/-! ## `fill_value` (`prac/normalforms/form_filler/filler.py`,
lines 16-41) and its driver loop
(`prac/sallie_form/form_filler/__main__.py`, lines 116-124)

`fill_value` dispatches on the field type to one of five page-interaction
helpers and wraps any exception in
`Exception(f"Failed to fill field '{label}' (type: {kind}): {e}")`.
The helpers' page effects are abstracted as an executor from the
dispatched sub-call to an outcome; `fill_value` returns its outcome
together with the list of sub-calls actually performed. -/

/-- A dispatched page-interaction helper call. -/
inductive SubCall
  | text (label value : String)
  | checkbox (label : String) (checked : Bool)
  | singleSelect (label choice : String)
  | multiSelect (label : String) (choices : List PyVal)
  | attachment (label path : String)

/-- The kinds routed to `_fill_text_field`. -/
def textKinds : List String :=
  ["text", "long_text", "email", "url", "tel", "number", "date"]

/-- The dispatch of `fill_value`'s `if/elif` chain, with the value
coercion each branch applies. -/
def dispatchFill (kind label : String) (value : PyVal) :
    Except String SubCall :=
  if kind ∈ textKinds then .ok (.text label (pyStr value))
  else if kind = "checkbox" then .ok (.checkbox label (pyTruthy value))
  else if kind = "single_select" then .ok (.singleSelect label (pyStr value))
  else if kind = "multi_select" then
    .ok (.multiSelect label
      (match value with
       | .list xs => xs
       | v => [.str (pyStr v)]))
  else if kind = "attachment" then .ok (.attachment label (pyStr value))
  else .error ("Unsupported field type: " ++ kind)

/-- The message of the wrapping `Exception` raised by `fill_value`. -/
def wrapErr (label kind msg : String) : String :=
  "Failed to fill field " ++ sqS ++ label ++ sqS ++
    " (type: " ++ kind ++ "): " ++ msg

/-- `fill_value(page, kind, label, value, timeout)`: outcome plus the
page-interaction sub-calls performed. -/
def fill_value (exec : SubCall → Except String Unit)
    (kind label : String) (value : PyVal) :
    Except String Unit × List SubCall :=
  match dispatchFill kind label value with
  | .error e => (.error (wrapErr label kind e), [])
  | .ok sc =>
    match exec sc with
    | .ok _ => (.ok (), [sc])
    | .error e => (.error (wrapErr label kind e), [sc])

/-- The field loop of the driver script: each field is filled in turn via
`fill_value`; an exception propagates to the top-level handler, which
records an error status and stops the run (no per-field catch). -/
def runFields (exec : SubCall → Except String Unit) :
    List (String × String × PyVal) → List SubCall × Option String
  | [] => ([], Option.none)
  | (label, kind, value) :: rest =>
    match fill_value exec kind label value with
    | (.ok _, calls) =>
      let r := runFields exec rest
      (calls ++ r.1, r.2)
    | (.error e, calls) => (calls, some e)

/-- Executor on which every page interaction succeeds. -/
def okExec : SubCall → Except String Unit := fun _ => .ok ()

/-! ### Claim C8: unsupported field types -/

/-- C8, counterexample: the claim says an unsupported type is fatal "for
that field's fill call only".  In the driver loop there is no per-field
handler: with fields `[("Color", "radio", ...), ("Name", "text", ...)]`
the unsupported first field raises, zero page interactions happen, the
run records an error, and the second (supported) field is never filled —
the error is fatal to the whole run, not only to that field's call. -/
theorem claim_c8_counterexample :
    runFields okExec
      [("Color", "radio", PyVal.str "Red"), ("Name", "text", PyVal.str "Ada")] =
      ([], some (wrapErr "Color" "radio" "Unsupported field type: radio")) := by
  rfl

/-- C8, amended: for every field whose type lies outside the supported
set, `fill_value` raises an exception identifying the unsupported type
and performs no page interaction for that field; the exception
propagates out of the fill call uncaught, so the driver aborts the run
and the remaining fields are not filled (fatal to the run, not only to
that field). -/
theorem claim_c8_unsupported_type :
    ∀ (kind label : String) (value : PyVal)
      (exec : SubCall → Except String Unit),
      kind ∉ textKinds → kind ≠ "checkbox" → kind ≠ "single_select" →
      kind ≠ "multi_select" → kind ≠ "attachment" →
      fill_value exec kind label value =
        (.error (wrapErr label kind ("Unsupported field type: " ++ kind)),
         []) ∧
      ∀ rest, runFields exec ((label, kind, value) :: rest) =
        ([], some (wrapErr label kind ("Unsupported field type: " ++ kind))) := by
  intro kind label value exec h1 h2 h3 h4 h5
  have hdisp : dispatchFill kind label value =
      .error ("Unsupported field type: " ++ kind) := by
    unfold dispatchFill
    rw [if_neg h1, if_neg h2, if_neg h3, if_neg h4, if_neg h5]
  have hfv : fill_value exec kind label value =
      (.error (wrapErr label kind ("Unsupported field type: " ++ kind)), []) := by
    unfold fill_value
    rw [hdisp]
  refine ⟨hfv, ?_⟩
  intro rest
  unfold runFields
  rw [hfv]

/-- C8, witness for `claim_c8_unsupported_type`: the concrete unsupported
type `radio` raises the identifying message and aborts the remaining
fields. -/
theorem claim_c8_unsupported_type_witness :
    fill_value okExec "radio" "Color" (PyVal.str "Red") =
      (.error (wrapErr "Color" "radio" "Unsupported field type: radio"),
       []) ∧
    runFields okExec
      [("Color", "radio", PyVal.str "Red"), ("Name", "text", PyVal.str "Ada")] =
      ([], some (wrapErr "Color" "radio" "Unsupported field type: radio")) :=
  have h := claim_c8_unsupported_type "radio" "Color" (PyVal.str "Red") okExec
    (by decide) (by decide) (by decide) (by decide) (by decide)
  ⟨h.1, h.2 [("Name", "text", PyVal.str "Ada")]⟩

/-! ## `_guess_value`, `_fallback_config` and `call_gemini`
(`prac/google-form-rpa-agent/rpa/form_parser_gemini.py`, lines 161-346)

`basic` (the BASIC_INFO profile) is a Python dict from string keys to
arbitrary JSON values, modelled as an association list of `PyVal`s. -/

/-- Python `basic[k] not in (None, '')`: the guard under which `pick`
returns a candidate value. -/
def pickOk : PyVal → Bool
  | .none => false
  | .str s => decide (s ≠ "")
  | .list _ => true

/-- The inner helper `pick(keys, default='')` of `_guess_value`: the
first present, non-`None`, non-empty value among the keys, else `''`. -/
def pick (basic : List (String × PyVal)) : List String → PyVal
  | [] => .str ""
  | k :: rest =>
    match lookupKey basic k with
    | some v => if pickOk v then v else pick basic rest
    | _ => pick basic rest

/-- Python `basic.get(k)` (default `None`). -/
def pyGet (basic : List (String × PyVal)) (k : String) : PyVal :=
  (lookupKey basic k).getD .none

/-- The name-composition `(fn + ' ' + ln).strip()` of the `'name'`
branch; raises a `TypeError` when a picked value is not a string. -/
def composeName (basic : List (String × PyVal)) : Except String PyVal :=
  match pyAdd (pick basic ["first_name", "firstname"]) (.str " ") with
  | .error e => .error e
  | .ok a =>
    match pyAdd a (pick basic ["last_name", "lastname"]) with
    | .error e => .error e
    | .ok b =>
      match b with
      | .str s => .ok (.str (pyStrip s))
      | _ => .error "AttributeError"

/-- One branch of the `if/elif` chain of `_guess_value`'s text branch:
either "a substring pattern fires, pick these keys", or the special
`'name' in l` branch with its full-name preference and composition. -/
inductive TextRule
  | pickRule (pats : List String) (keys : List String)
  | nameRule

/-- The branches of the text chain, in source order (each entry is one
`if`/`elif` of lines 173-206; the fifth is the `'name'` branch). -/
def textRules : List TextRule :=
  [.pickRule ["email"] ["email", "mail"],
   .pickRule ["phone", "mobile"] ["phone", "phone_number", "mobile"],
   .pickRule ["first name"] ["first_name", "firstname", "given_name", "name_first"],
   .pickRule ["last name", "surname"] ["last_name", "lastname", "family_name", "name_last"],
   .nameRule,
   .pickRule ["company", "organization", "organisation"]
     ["company", "organization", "organisation", "employer"],
   .pickRule ["title", "role", "position"] ["title", "role", "position", "job_title"],
   .pickRule ["city"] ["city"],
   .pickRule ["state", "province"] ["state", "province"],
   .pickRule ["country"] ["country"],
   .pickRule ["zip", "postal"] ["zip", "postal", "postal_code", "zip_code"],
   .pickRule ["address"] ["address", "street"],
   .pickRule ["website", "url"] ["website", "url"],
   .pickRule ["message", "comments", "notes"] ["message", "notes", "comment"]]

/-- The guard of one chain branch on the lowered label. -/
def ruleMatches (l : String) : TextRule → Bool
  | .pickRule pats _ => pats.any (fun p => strContains l p)
  | .nameRule => strContains l "name"

/-- The body of one chain branch. -/
def applyRule (basic : List (String × PyVal)) : TextRule → Except String PyVal
  | .pickRule _ keys => .ok (pick basic keys)
  | .nameRule =>
    let full := pick basic ["name", "full_name"]
    if pyTruthy full then .ok full else composeName basic

/-- The `text`/`paragraph` branch of `_guess_value`: the first matching
branch of the chain fires; with no match the value is `''`. -/
def guessText (l : String) (basic : List (String × PyVal)) :
    Except String PyVal :=
  match textRules.find? (ruleMatches l) with
  | some rule => applyRule basic rule
  | none => .ok (.str "")

/-- The `date` branch: the picked value when `str(v or '')` matches the
date format regex, else `''`. -/
def guessDate (basic : List (String × PyVal)) : PyVal :=
  let v := pick basic ["date", "dob", "birthday"]
  if (matchDateRe (pyStr (pyOr v (.str ""))).data).isSome then v else .str ""

/-- The `time` branch. -/
def guessTime (basic : List (String × PyVal)) : PyVal :=
  let v := pick basic ["time"]
  if (matchTimeRe (pyStr (pyOr v (.str ""))).data).isSome then v else .str ""

/-- `options[0] if options else ''`. -/
def choiceDefault (options : List String) : PyVal :=
  match options with
  | [] => .str ""
  | o :: _ => .str o

/-- The `dropdown`/`choice` branch: the case-insensitively matching
option when the profile supplies a string hint, else the first option,
else `''`. -/
def guessChoice (options : List String) (basic : List (String × PyVal)) :
    PyVal :=
  let v := pick basic ["choice", "selection", "option", "answer", "value"]
  match v with
  | .str vs =>
    if options.isEmpty then choiceDefault options
    else
      match options.find?
          (fun o => decide (pyLower (pyStrip o) = pyLower (pyStrip vs))) with
      | some o => .str o
      | _ => choiceDefault options
  | _ => choiceDefault options

/-- The `checkbox` branch: the profile's selections filtered down to
case-insensitive matches among the options. -/
def guessCheckbox (options : List String) (basic : List (String × PyVal)) :
    PyVal :=
  let v0 := pyOr (pyGet basic "selections")
    (pyOr (pyGet basic "options") (pyOr (pyGet basic "answers") (.list [])))
  let v1 := match v0 with
    | .str s => PyVal.list [.str s]
    | x => x
  let items := match pyOr v1 (.list []) with
    | .list xs => xs
    | _ => []
  .list ((items.flatMap (fun o =>
    options.filter (fun cand =>
      pyLower (pyStrip cand) = pyLower (pyStrip (pyStr o))))).map .str)

/-- `_guess_value(label, ftype, options, basic)`: heuristic fallback
value for one field. -/
def _guess_value (label ftype : String) (options : List String)
    (basic : List (String × PyVal)) : Except String PyVal :=
  let l := pyLower label
  if ftype = "text" ∨ ftype = "paragraph" then guessText l basic
  else if ftype = "date" then .ok (guessDate basic)
  else if ftype = "time" then .ok (guessTime basic)
  else if ftype = "dropdown" ∨ ftype = "choice" then
    .ok (guessChoice options basic)
  else if ftype = "checkbox" then .ok (guessCheckbox options basic)
  else .ok (.str "")

/-- One field descriptor produced by `summarize_form_fields` (`type` is
spelled `ftype`; Python dict key `'type'`). -/
structure FieldSummary where
  entry_id : String
  question_label : String
  ftype : String
  options : List String

/-- One entry of the generated configuration's `fields` list. -/
structure ConfigField where
  entry_id : String
  question_label : String
  ftype : String
  value : PyVal
  option_hints : Option (List String)

/-- The configuration object `call_gemini` returns. -/
structure FormConfig where
  form_url : String
  fields : List ConfigField

/-- The body of `_fallback_config`'s loop for one descriptor, including
the list coercion for checkbox values. -/
def fallbackField (basic : List (String × PyVal)) (f : FieldSummary) :
    Except String ConfigField :=
  match _guess_value f.question_label f.ftype f.options basic with
  | .error e => .error e
  | .ok v =>
    let v' := if f.ftype = "checkbox" && !(isList v) then
        (if pyTruthy v then PyVal.list [v] else PyVal.list [])
      else v
    .ok ⟨f.entry_id, f.question_label, f.ftype, v',
      if f.options.isEmpty then Option.none else some f.options⟩

/-- Sequential mapping that propagates the first raised exception (the
Python `for` loop building the `fields` list). -/
def mapExcept {α β : Type} (f : α → Except String β) :
    List α → Except String (List β)
  | [] => .ok []
  | x :: xs =>
    match f x with
    | .error e => .error e
    | .ok y =>
      match mapExcept f xs with
      | .error e => .error e
      | .ok ys => .ok (y :: ys)

/-- `_fallback_config(url, summary, basic)`. -/
def _fallback_config (url : String) (summary : List FieldSummary)
    (basic : List (String × PyVal)) : Except String FormConfig :=
  match mapExcept (fallbackField basic) summary with
  | .error e => .error e
  | .ok fs => .ok ⟨url, fs⟩

/-- A parsed JSON value (the result of `json.loads` on the extracted
model output). -/
inductive Json
  | null
  | jbool (b : Bool)
  | num (n : Int)
  | str (s : String)
  | arr (xs : List Json)
  | obj (kvs : List (String × Json))

/-- The outcome of the external steps of `call_gemini`: missing API key,
SDK call raising, text extraction/JSON parsing raising, or a parsed
JSON value. -/
inductive GeminiCall
  | noKey
  | sdkError
  | badOutput
  | parsed (j : Json)

/-- Which return path `call_gemini` took. -/
inductive GeminiResult
  | fromModel (j : Json)
  | fallback (cfg : FormConfig)

/-- The schema check `isinstance(data, dict) and
isinstance(data.get('fields'), list)`. -/
def hasFieldsList : Json → Bool
  | .obj kvs =>
    match lookupKey kvs "fields" with
    | some (.arr _) => true
    | _ => false
  | _ => false

/-- `call_gemini(url, summary, basic, prompt_path)`: on any failure of
the external call chain the fallback configuration is returned; a parsed
response with a `fields` list is returned as-is. -/
def call_gemini (outcome : GeminiCall) (url : String)
    (summary : List FieldSummary) (basic : List (String × PyVal)) :
    Except String GeminiResult :=
  match outcome with
  | .noKey => (_fallback_config url summary basic).map .fallback
  | .sdkError => (_fallback_config url summary basic).map .fallback
  | .badOutput => (_fallback_config url summary basic).map .fallback
  | .parsed j =>
    if hasFieldsList j then .ok (.fromModel j)
    else (_fallback_config url summary basic).map .fallback

/-- Values of the shapes for which `_guess_value` can never raise. -/
def isStrOrNone : PyVal → Bool
  | .str _ => true
  | .none => true
  | _ => false

/-! ### Totality of the guesser on string-valued profiles -/

theorem lookupKey_mem {α : Type} {l : List (String × α)} {k : String}
    {v : α} (h : lookupKey l k = some v) : (k, v) ∈ l := by
  induction l with
  | nil => simp [lookupKey] at h
  | cons kv rest ih =>
    unfold lookupKey at h
    by_cases hk : kv.1 = k
    · rw [if_pos hk, Option.some.injEq] at h
      have hkv : kv = (k, v) := by
        obtain ⟨a, b⟩ := kv
        simp only at hk h
        rw [hk, h]
      rw [hkv]
      exact List.mem_cons_self _ _
    · rw [if_neg hk] at h
      exact List.mem_cons_of_mem kv (ih h)

theorem pick_str {basic : List (String × PyVal)}
    (h : ∀ kv ∈ basic, isStrOrNone kv.2 = true) :
    ∀ keys : List String, ∃ s, pick basic keys = .str s := by
  intro keys
  induction keys with
  | nil => exact ⟨"", rfl⟩
  | cons k rest ih =>
    unfold pick
    cases hlk : lookupKey basic k with
    | none => exact ih
    | some v =>
      have hv := h (k, v) (lookupKey_mem hlk)
      cases v with
      | none => simpa [pickOk] using ih
      | str s =>
        by_cases hs : s = ""
        · simpa [pickOk, hs] using ih
        · exact ⟨s, by simp [pickOk, hs]⟩
      | list xs => simp [isStrOrNone] at hv

theorem composeName_ok {basic : List (String × PyVal)}
    (h : ∀ kv ∈ basic, isStrOrNone kv.2 = true) :
    ∃ r, composeName basic = .ok r := by
  obtain ⟨a, ha⟩ := pick_str h ["first_name", "firstname"]
  obtain ⟨b, hb⟩ := pick_str h ["last_name", "lastname"]
  refine ⟨.str (pyStrip (a ++ " " ++ b)), ?_⟩
  unfold composeName
  rw [ha, hb]
  rfl

theorem guessText_ok (l : String) {basic : List (String × PyVal)}
    (h : ∀ kv ∈ basic, isStrOrNone kv.2 = true) :
    ∃ r, guessText l basic = .ok r := by
  unfold guessText
  cases textRules.find? (ruleMatches l) with
  | none => exact ⟨_, rfl⟩
  | some rule =>
    cases rule with
    | pickRule pats keys => exact ⟨_, rfl⟩
    | nameRule =>
      unfold applyRule
      by_cases ht : pyTruthy (pick basic ["name", "full_name"])
      · exact ⟨_, by rw [if_pos ht]⟩
      · obtain ⟨r, hr⟩ := composeName_ok h
        exact ⟨r, by rw [if_neg ht]; exact hr⟩

theorem guess_value_ok (label ftype : String) (options : List String)
    {basic : List (String × PyVal)}
    (h : ∀ kv ∈ basic, isStrOrNone kv.2 = true) :
    ∃ r, _guess_value label ftype options basic = .ok r := by
  simp only [_guess_value]
  split_ifs <;> first
    | exact ⟨_, rfl⟩
    | exact guessText_ok (pyLower label) h

theorem fallbackField_ok {basic : List (String × PyVal)}
    (h : ∀ kv ∈ basic, isStrOrNone kv.2 = true) (f : FieldSummary) :
    ∃ cf, fallbackField basic f = .ok cf ∧
      cf.entry_id = f.entry_id ∧ cf.question_label = f.question_label ∧
      cf.ftype = f.ftype ∧
      (cf.ftype = "checkbox" → ∃ xs, cf.value = PyVal.list xs) := by
  obtain ⟨r, hr⟩ := guess_value_ok f.question_label f.ftype f.options h
  unfold fallbackField
  rw [hr]
  refine ⟨_, rfl, rfl, rfl, rfl, ?_⟩
  intro hcb
  have hcb' : f.ftype = "checkbox" := hcb
  by_cases hl : isList r
  · have : (f.ftype = "checkbox" && !(isList r)) = false := by
      simp [hl]
    rw [this]
    simp only [if_false]
    cases r with
    | list xs => exact ⟨xs, rfl⟩
    | none => simp [isList] at hl
    | str s => simp [isList] at hl
  · have : (f.ftype = "checkbox" && !(isList r)) = true := by
      simp [hcb', hl]
    rw [this]
    simp only [if_true]
    by_cases ht : pyTruthy r = true
    · simp only [ht, if_true]
      exact ⟨[r], rfl⟩
    · rw [if_neg (by simp [ht])]
      exact ⟨[], rfl⟩

theorem mapExcept_ok_of_all {α β : Type} (f : α → Except String β)
    (P : α → β → Prop) (hf : ∀ x, ∃ y, f x = .ok y ∧ P x y) :
    ∀ l : List α, ∃ out, mapExcept f l = .ok out ∧
      out.length = l.length ∧
      ∀ i (h1 : i < l.length) (h2 : i < out.length),
        P (l.get ⟨i, h1⟩) (out.get ⟨i, h2⟩) := by
  intro l
  induction l with
  | nil =>
    refine ⟨[], rfl, rfl, ?_⟩
    intro i h1
    simp at h1
  | cons x xs ih =>
    obtain ⟨y, hy, hPy⟩ := hf x
    obtain ⟨out, hout, hlen, hp⟩ := ih
    refine ⟨y :: out, ?_, by simp [hlen], ?_⟩
    · unfold mapExcept
      rw [hy, hout]
    · intro i h1 h2
      cases i with
      | zero => exact hPy
      | succ i' =>
        exact hp i' (by simpa using h1) (by simpa using h2)

/-! ### Claim C2: fallback on any mapping failure -/

/-- Profile with a non-string value under `first_name`. -/
def badBasic : List (String × PyVal) := [("first_name", PyVal.list [])]

/-- A text field labelled `Name`, triggering the name-composition path. -/
def nameField : FieldSummary := ⟨"123", "Name", "text", []⟩

/-- C2, counterexample: the claim quantifies over every basic-info
dictionary, but with `basic = {"first_name": []}` and a text field
labelled `Name`, the name-composition step `fn + ' ' + ln` in
`_guess_value` evaluates `[] + ' '` and raises a `TypeError`; nothing in
`call_gemini` catches it on the missing-key path (and on the parse path
the handler re-runs `_fallback_config`, which raises again), so
`call_gemini` raises instead of returning the fallback configuration. -/
theorem claim_c2_counterexample :
    call_gemini .noKey "https://forms.example/f" [nameField] badBasic =
      .error "TypeError" := by
  rfl

/-- C2, amended: whenever the generative-model call fails (missing API
key, SDK error, non-JSON output, or output without a `fields` list) and
every basic-info value is a string or `None`, `call_gemini` does not
raise and returns the fallback configuration; `_fallback_config` then
produces exactly one field entry per input descriptor, preserving its
entry id, label and type, with a list value for checkbox fields.  With a
non-string basic value the name-composition step can raise a
`TypeError`, which propagates out of `call_gemini`. -/
theorem claim_c2_fallback_mapping :
    ∀ (url : String) (summary : List FieldSummary)
      (basic : List (String × PyVal)),
    (∀ kv ∈ basic, isStrOrNone kv.2 = true) →
    ∃ cfg : FormConfig,
      _fallback_config url summary basic = .ok cfg ∧
      call_gemini .noKey url summary basic = .ok (.fallback cfg) ∧
      call_gemini .sdkError url summary basic = .ok (.fallback cfg) ∧
      call_gemini .badOutput url summary basic = .ok (.fallback cfg) ∧
      (∀ j, hasFieldsList j = false →
        call_gemini (.parsed j) url summary basic = .ok (.fallback cfg)) ∧
      cfg.form_url = url ∧
      cfg.fields.length = summary.length ∧
      (∀ i (h1 : i < summary.length) (h2 : i < cfg.fields.length),
        (cfg.fields.get ⟨i, h2⟩).entry_id = (summary.get ⟨i, h1⟩).entry_id ∧
        (cfg.fields.get ⟨i, h2⟩).question_label =
          (summary.get ⟨i, h1⟩).question_label ∧
        (cfg.fields.get ⟨i, h2⟩).ftype = (summary.get ⟨i, h1⟩).ftype) ∧
      (∀ f ∈ cfg.fields, f.ftype = "checkbox" →
        ∃ xs, f.value = PyVal.list xs) := by
  intro url summary basic h
  obtain ⟨out, hout, hlen, hp⟩ := mapExcept_ok_of_all (fallbackField basic)
    (fun x y => y.entry_id = x.entry_id ∧ y.question_label = x.question_label ∧
      y.ftype = x.ftype ∧
      (y.ftype = "checkbox" → ∃ xs, y.value = PyVal.list xs))
    (fun x => by
      obtain ⟨cf, h1, h2, h3, h4, h5⟩ := fallbackField_ok h x
      exact ⟨cf, h1, h2, h3, h4, h5⟩)
    summary
  have hcfg : _fallback_config url summary basic = .ok ⟨url, out⟩ := by
    unfold _fallback_config
    rw [hout]
  refine ⟨⟨url, out⟩, hcfg, ?_, ?_, ?_, ?_, rfl, hlen, ?_, ?_⟩
  · show (_fallback_config url summary basic).map GeminiResult.fallback = _
    rw [hcfg]
    rfl
  · show (_fallback_config url summary basic).map GeminiResult.fallback = _
    rw [hcfg]
    rfl
  · show (_fallback_config url summary basic).map GeminiResult.fallback = _
    rw [hcfg]
    rfl
  · intro j hj
    show (if hasFieldsList j then _ else
      (_fallback_config url summary basic).map GeminiResult.fallback) = _
    rw [hj]
    rw [if_neg (by simp)]
    rw [hcfg]
    rfl
  · intro i h1 h2
    exact ⟨(hp i h1 h2).1, (hp i h1 h2).2.1, (hp i h1 h2).2.2.1⟩
  · intro f hf hcb
    obtain ⟨n, hn⟩ := List.mem_iff_get.mp hf
    obtain ⟨_, _, _, h4⟩ := hp n.1 (by
      have := n.2
      simpa [hlen] using this) n.2
    rw [hn] at h4
    exact h4 hcb

/-- Descriptors for the C2 witness: a text field and a checkbox field. -/
def summarySample : List FieldSummary :=
  [⟨"1", "Email", "text", []⟩, ⟨"2", "Colors", "checkbox", ["Red", "Blue"]⟩]

/-- String-valued profile for the C2 witness. -/
def basicSample : List (String × PyVal) :=
  [("email", PyVal.str "ada@example.org"),
   ("selections", PyVal.str "red")]

/-- C2, witness for `claim_c2_fallback_mapping`, at a concrete descriptor
list and profile. -/
theorem claim_c2_fallback_mapping_witness :
    ∃ cfg : FormConfig,
      _fallback_config "https://forms.example/f" summarySample basicSample =
        .ok cfg ∧
      call_gemini .noKey "https://forms.example/f" summarySample basicSample =
        .ok (.fallback cfg) ∧
      call_gemini .sdkError "https://forms.example/f" summarySample basicSample =
        .ok (.fallback cfg) ∧
      call_gemini .badOutput "https://forms.example/f" summarySample basicSample =
        .ok (.fallback cfg) ∧
      (∀ j, hasFieldsList j = false →
        call_gemini (.parsed j) "https://forms.example/f" summarySample
          basicSample = .ok (.fallback cfg)) ∧
      cfg.form_url = "https://forms.example/f" ∧
      cfg.fields.length = summarySample.length ∧
      (∀ i (h1 : i < summarySample.length) (h2 : i < cfg.fields.length),
        (cfg.fields.get ⟨i, h2⟩).entry_id =
          (summarySample.get ⟨i, h1⟩).entry_id ∧
        (cfg.fields.get ⟨i, h2⟩).question_label =
          (summarySample.get ⟨i, h1⟩).question_label ∧
        (cfg.fields.get ⟨i, h2⟩).ftype = (summarySample.get ⟨i, h1⟩).ftype) ∧
      (∀ f ∈ cfg.fields, f.ftype = "checkbox" →
        ∃ xs, f.value = PyVal.list xs) :=
  claim_c2_fallback_mapping "https://forms.example/f" summarySample
    basicSample (by
      intro kv hkv
      rcases List.mem_cons.mp hkv with rfl | hkv
      · rfl
      · rcases List.mem_cons.mp hkv with rfl | hkv
        · rfl
        · simp at hkv)

/-! ### Claim C10: the fallback guesser never invents an option -/

/-- C10: for every label, options list and profile, `_guess_value` with
field type `dropdown` or `choice` returns a member of the options list
(the case-insensitively matching option when the profile supplies a
string hint, otherwise the first option) or the empty string when the
options list is empty; and with field type `checkbox` it returns a list
every element of which is a member of the options list. -/
theorem claim_c10_no_invented_option :
    ∀ (label : String) (options : List String)
      (basic : List (String × PyVal)),
    (∀ ft, ft = "dropdown" ∨ ft = "choice" →
      ∃ r, _guess_value label ft options basic = .ok (.str r) ∧
        ((options = [] ∧ r = "") ∨ r ∈ options)) ∧
    (∃ xs, _guess_value label "checkbox" options basic = .ok (.list xs) ∧
      ∀ x ∈ xs, ∃ o ∈ options, x = PyVal.str o) := by
  intro label options basic
  have hdefault : ∃ r, choiceDefault options = .str r ∧
      ((options = [] ∧ r = "") ∨ r ∈ options) := by
    cases options with
    | nil => exact ⟨"", rfl, Or.inl ⟨rfl, rfl⟩⟩
    | cons o os => exact ⟨o, rfl, Or.inr (List.mem_cons_self o os)⟩
  have hchoice : ∃ r, guessChoice options basic = .str r ∧
      ((options = [] ∧ r = "") ∨ r ∈ options) := by
    unfold guessChoice
    cases pick basic ["choice", "selection", "option", "answer", "value"] with
    | str vs =>
      by_cases he : options.isEmpty
      · simpa [he] using hdefault
      · simp only [he, if_false]
        cases hf : options.find?
            (fun o => decide (pyLower (pyStrip o) = pyLower (pyStrip vs))) with
        | some o =>
          exact ⟨o, rfl, Or.inr (List.mem_of_find?_eq_some hf)⟩
        | none => exact hdefault
    | none => exact hdefault
    | list xs => exact hdefault
  constructor
  · intro ft hft
    have hne1 : ¬(ft = "text" ∨ ft = "paragraph") := by
      rcases hft with rfl | rfl <;> simp
    have hne2 : ft ≠ "date" := by
      rcases hft with rfl | rfl <;> simp
    have hne3 : ft ≠ "time" := by
      rcases hft with rfl | rfl <;> simp
    obtain ⟨r, hr, hmem⟩ := hchoice
    refine ⟨r, ?_, hmem⟩
    unfold _guess_value
    rw [if_neg hne1, if_neg hne2, if_neg hne3, if_pos hft, hr]
  · have hgc : ∃ xs, guessCheckbox options basic = .list xs ∧
        ∀ x ∈ xs, ∃ o ∈ options, x = PyVal.str o := by
      unfold guessCheckbox
      refine ⟨_, rfl, ?_⟩
      intro x hx
      rw [List.mem_map] at hx
      obtain ⟨cand, hcand, rfl⟩ := hx
      rw [List.mem_flatMap] at hcand
      obtain ⟨o, _, hcand⟩ := hcand
      exact ⟨cand, List.mem_of_mem_filter hcand, rfl⟩
    obtain ⟨xs, hxs, hmem⟩ := hgc
    refine ⟨xs, ?_, hmem⟩
    unfold _guess_value
    rw [if_neg (by simp), if_neg (by simp), if_neg (by simp),
      if_neg (by simp), if_pos rfl, hxs]

/-- C10, witness for `claim_c10_no_invented_option`: a dropdown with a
case-insensitive hint match and a checkbox with one matching selection,
on concrete options. -/
theorem claim_c10_no_invented_option_witness :
    (∃ r, _guess_value "Color" "dropdown" ["Red", "Blue"]
        [("choice", PyVal.str " bLuE ")] = .ok (.str r) ∧
      ((["Red", "Blue"] = ([] : List String) ∧ r = "") ∨ r ∈ ["Red", "Blue"])) ∧
    (∃ xs, _guess_value "Color" "checkbox" ["Red", "Blue"]
        [("selections", PyVal.str "red")] = .ok (.list xs) ∧
      ∀ x ∈ xs, ∃ o ∈ ["Red", "Blue"], x = PyVal.str o) :=
  ⟨(claim_c10_no_invented_option "Color" ["Red", "Blue"]
      [("choice", PyVal.str " bLuE ")]).1 "dropdown" (Or.inl rfl),
   (claim_c10_no_invented_option "Color" ["Red", "Blue"]
      [("selections", PyVal.str "red")]).2⟩

end ArdusRpa
